import Mathlib

/-!
Shallow embedding of the Timonel TWI bootloader core
(`src/timonel-bootloader/timonel.c`, with the USI TWI driver it contains).

Machine integers are modelled as `Nat` with explicit reductions:
`% 256` for `uint8_t`, `% 65536` for `uint16_t`/`int` (the AVR target has
16-bit `int`).  C `for`/`while` loops become structural recursions; where the
C loop is not structurally decreasing, an explicit iteration-count argument
bounds the recursion and is always instantiated large enough that the
embedded loop runs exactly as the C loop does.  Calls to the SPM flash
primitives (`boot_page_erase`, `boot_page_fill`, `boot_page_write`) are
recorded as an emitted trace of `FlashOp` events, and writes to the USI
control registers are recorded as `UsiAction` events.
-/

set_option linter.unusedVariables false

namespace Timonel

/-- Flash page containing the reset vector.  The value is fixed to 0 by the
configuration headers (spec section 3: `RESET_PAGE = 0`); the header file
itself is not part of the sources, only `timonel.c` uses the macro. -/
def RESET_PAGE : Nat := 0

/-- Flag bit positions inside `MemPack.flags`; from the comment in
`timonel.c` line 73 ("4: exit; 3: delete app; 2, 1: initialized", 1-based):
bit 0 and 1 are the two init steps, bit 2 requests the flash deletion,
bit 3 requests the exit.  The numeric positions come from the absent
`timonel.h`; the claims use the bits only symbolically. -/
def FL_INIT_1 : Nat := 0

/-- Second init-step flag bit (see `FL_INIT_1`). -/
def FL_INIT_2 : Nat := 1

/-- Delete-application flag bit (see `FL_INIT_1`). -/
def FL_DEL_FLASH : Nat := 2

/-- Exit-bootloader flag bit (see `FL_INIT_1`). -/
def FL_EXIT_TML : Nat := 3

/-- Command opcodes and acknowledge codes.  Modelled from the spec: the
`nb-i2c-cmd.h` header with the numeric command values is not among the
sources; the dispatcher and the claims need the codes only as distinct
byte constants, so distinct representative bytes are used. -/
def GETTMNLV : Nat := 0x75
/-- See `GETTMNLV`. -/
def EXITTMNL : Nat := 0x76
/-- See `GETTMNLV`. -/
def DELFLASH : Nat := 0x78
/-- See `GETTMNLV`. -/
def STPGADDR : Nat := 0x7A
/-- See `GETTMNLV`. -/
def WRITPAGE : Nat := 0x7C
/-- See `GETTMNLV`. -/
def READFLSH : Nat := 0x7D
/-- See `GETTMNLV`. -/
def INITSOFT : Nat := 0x81
/-- See `GETTMNLV`. -/
def ACKTMNLV : Nat := 0x8A
/-- See `GETTMNLV`. -/
def ACKEXITT : Nat := 0x89
/-- See `GETTMNLV`. -/
def ACKDELFL : Nat := 0x87
/-- See `GETTMNLV`. -/
def AKPGADDR : Nat := 0x85
/-- See `GETTMNLV`. -/
def ACKWTPAG : Nat := 0x83
/-- See `GETTMNLV`. -/
def ACKRDFSH : Nat := 0x82
/-- See `GETTMNLV`. -/
def ACKINITS : Nat := 0x7E
/-- Signature byte `'T'` of the GETTMNLV reply (`ID_CHAR_3`). -/
def ID_CHAR_3 : Nat := 84
/-- Optional-features byte of the GETTMNLV reply; compile-time constant
from the absent configuration header, used only as an opaque byte. -/
def TML_FEATURES : Nat := 0
/-- Extended-features byte of the GETTMNLV reply (see `TML_FEATURES`). -/
def TML_EXT_FEATURES : Nat := 0

/-- Compile-time configuration consumed by the core: the `#define`
constants and `#if` feature toggles of `timonel.c`. -/
structure Cfg where
  timonel_start : Nat
  spm_pagesize : Nat
  mst_packet_size : Nat
  twi_addr : Nat
  auto_page_addr : Bool
  check_page_ix : Bool
  cmd_setpgaddr : Bool
  cmd_readflash : Bool
  two_step_init : Bool
  app_use_tpl_pg : Bool
  force_erase_pg : Bool
  timeout_exit : Bool
deriving DecidableEq

/-- The "memory pack" session state (`typedef struct m_pack`,
`timonel.c` lines 70-78).  `page_addr` is a `uint16_t`, the other
fields are `uint8_t`. -/
structure MemPack where
  page_addr : Nat
  page_ix : Nat
  flags : Nat
  app_reset_lsb : Nat
  app_reset_msb : Nat
deriving DecidableEq

/-- One call to an SPM flash primitive, recorded as an event. -/
inductive FlashOp where
  | erase (addr : Nat)
  | fill (addr : Nat) (word : Nat)
  | write (addr : Nat)
deriving DecidableEq

/-- `true` exactly on the long-latency SPM operations (page erase and page
write); `boot_page_fill` only loads the temporary page buffer. -/
def isSlowOp : FlashOp → Bool
  | .erase _ => true
  | .write _ => true
  | .fill _ _ => false

/-- Pointwise update of a buffer modelled as a function from index to byte. -/
def upd (f : Nat → Nat) (i v : Nat) : Nat → Nat :=
  fun j => if j = i then v else f j

/-- TWI TX and RX ring capacity (`TWI_TX_BUFFER_SIZE` /
`TWI_RX_BUFFER_SIZE`, default 16; the masks are `SIZE - 1`). -/
def RING_SIZE : Nat := 16

/-- TX ring of the driver in `timonel.c`: backing array with `tx_head`
and `tx_tail` indices (no byte count). -/
structure TxRing where
  buf : Nat → Nat
  head : Nat
  tail : Nat

/-- RX ring of the driver in `timonel.c`: backing array, `rx_head`,
`rx_tail` and the `rx_byte_count` counter (a `uint8_t`). -/
structure RxRing where
  buf : Nat → Nat
  head : Nat
  tail : Nat
  count : Nat

/-- `UsiTwiTransmitByte` (`timonel.c` lines 590-594): advance `tx_head`
by one (mod mask), then spin while `tx_head == tx_tail`, then store the
byte at the new head.  In the polled single-threaded model nothing can
drain the ring while this function spins, so reaching the spin with
`tx_head == tx_tail` blocks forever; that outcome is `none`. -/
def txPush (st : TxRing) (b : Nat) : Option TxRing :=
  let h := (st.head + 1) % RING_SIZE
  if h = st.tail then none
  else some { buf := upd st.buf h (b % 256), head := h, tail := st.tail }

/-- Enqueue a list of bytes in order with `txPush`. -/
def txPushList (st : TxRing) : List Nat → Option TxRing
  | [] => some st
  | b :: rest =>
    match txPush st b with
    | none => none
    | some st1 => txPushList st1 rest

/-- The TX-ring consumer inside `UsiOverflowHandler`'s
`STATE_SEND_DATA_BYTE` (`timonel.c` lines 698-712): if the ring is
nonempty, advance `tx_tail` and load the byte at the new tail;
otherwise report the ring empty. -/
def txPop (st : TxRing) : Option (Nat × TxRing) :=
  if st.head = st.tail then none
  else
    let t := (st.tail + 1) % RING_SIZE
    some (st.buf t, { st with tail := t })

/-- Dequeue `n` bytes in order with `txPop`. -/
def txPopN (st : TxRing) : Nat → Option (List Nat)
  | 0 => some []
  | n + 1 =>
    match txPop st with
    | none => none
    | some (b, st1) => (txPopN st1 n).map (b :: ·)

/-- The RX-ring producer inside `UsiOverflowHandler`'s
`STATE_PUT_BYTE_IN_RX_BUFFER_AND_SEND_ACK` (`timonel.c` lines 735-744):
increment `rx_byte_count`, advance `rx_head`, store the byte at the new
head.  There is no capacity check. -/
def rxPush (st : RxRing) (b : Nat) : RxRing :=
  let h := (st.head + 1) % RING_SIZE
  { buf := upd st.buf h (b % 256), head := h, tail := st.tail,
    count := (st.count + 1) % 256 }

/-- Enqueue a list of bytes in order with `rxPush`. -/
def rxPushList (st : RxRing) : List Nat → RxRing
  | [] => st
  | b :: rest => rxPushList (rxPush st b) rest

/-- The RX-ring consumer (the command drain in `UsiOverflowHandler`,
`timonel.c` lines 660-662): `while (rx_byte_count-- == 0) {}` followed by
advancing `rx_tail` and reading the byte there.  With a nonzero count the
spin exits at once, decrementing the count by one; with a zero count the
post-decrement quirk wraps the `uint8_t` counter to 255 and a second
decrement to 254 before the read proceeds. -/
def rxPop (st : RxRing) : Nat × RxRing :=
  let c := if st.count = 0 then 254 else st.count - 1
  let t := (st.tail + 1) % RING_SIZE
  (st.buf t, { st with tail := t, count := c })

/-- Dequeue `n` bytes in order with `rxPop`. -/
def rxPopN (st : RxRing) : Nat → List Nat × RxRing
  | 0 => ([], st)
  | n + 1 =>
    let (b, st1) := rxPop st
    let (rest, st2) := rxPopN st1 n
    (b :: rest, st2)

/-- A TX ring round trip from the empty ring: enqueue the bytes of `s` in
order, then dequeue `s.length` bytes. -/
def txRoundtrip (s : List Nat) : Option (List Nat) :=
  match txPushList { buf := fun _ => 0, head := 0, tail := 0 } s with
  | none => none
  | some st => txPopN st s.length

/-- An RX ring round trip from the empty ring: enqueue the bytes of `s` in
order, then dequeue `s.length` bytes. -/
def rxRoundtrip (s : List Nat) : List Nat :=
  (rxPopN (rxPushList { buf := fun _ => 0, head := 0, tail := 0, count := 0 } s)
    s.length).1

/-- The byte-pair fill loop of `Reply_WRITPAGE` (`timonel.c` lines
503-507 and 509-513): `for (i = start; i < MST_PACKET_SIZE + 1; i += 2)`
calls `boot_page_fill(page_addr + page_ix, (command[i+1] << 8) | command[i])`,
accumulates the `uint8_t` checksum and advances `page_ix` by 2.  The first
argument counts remaining iterations to make the recursion structural; it
is always called with at least `M + 1`, which the loop can never exhaust. -/
def fillLoop (cmd : Nat → Nat) (M : Nat) :
    Nat → Nat → MemPack → Nat → List FlashOp → MemPack × Nat × List FlashOp
  | 0, _, mp, ck, acc => (mp, ck, acc)
  | fuel + 1, i, mp, ck, acc =>
    if i < M + 1 then
      let lo := cmd i % 256
      let hi := cmd (i + 1) % 256
      let addr := (mp.page_addr + mp.page_ix) % 65536
      fillLoop cmd M fuel (i + 2)
        { mp with page_ix := (mp.page_ix + 2) % 256 }
        ((ck + (hi + lo) % 256) % 256)
        (acc ++ [FlashOp.fill addr ((hi <<< 8) ||| lo)])
    else (mp, ck, acc)

/-- Result of `Reply_WRITPAGE`: the updated `MemPack`, the emitted
`boot_page_fill` trace, and the two transmitted reply bytes. -/
structure WPOut where
  mp : MemPack
  ops : List FlashOp
  reply0 : Nat
  reply1 : Nat

/-- The page-buffer fill stage of `Reply_WRITPAGE` (`timonel.c` lines
491-514): the reset-page branch saves the application reset vector (in
auto-page-address mode), substitutes the jump-to-bootloader word
`0xC000 + (TIMONEL_START/2 - 1)` at flash word 0 and continues with the
remaining byte pairs; the ordinary branch fills all byte pairs.  Returns
the updated `MemPack`, the checksum accumulator `reply[1]`, and the
`boot_page_fill` trace. -/
def writPageFill (cfg : Cfg) (cmd : Nat → Nat) (mp : MemPack) :
    MemPack × Nat × List FlashOp :=
  let M := cfg.mst_packet_size
  if (mp.page_addr + mp.page_ix) % 65536 = RESET_PAGE then
    let mp0 :=
      if cfg.auto_page_addr then
        { mp with app_reset_lsb := cmd 1 % 256, app_reset_msb := cmd 2 % 256 }
      else mp
    let op0 := FlashOp.fill RESET_PAGE ((0xC000 + (cfg.timonel_start / 2 - 1)) % 65536)
    let ck0 := (cmd 2 % 256 + cmd 1 % 256) % 256
    fillLoop cmd M (M + 1) 3 { mp0 with page_ix := (mp0.page_ix + 2) % 256 } ck0 [op0]
  else
    fillLoop cmd M (M + 1) 1 mp 0 []

/-- `Reply_WRITPAGE` (`timonel.c` lines 488-527): run the fill stage,
then compare the checksum accumulator with the trailing command byte
(and, under `CHECK_PAGE_IX`, bound-check `page_ix`); on failure set
`FL_DEL_FLASH` and zero the reply checksum.  `command` is the `uint8_t`
array of the received frame (entries read reduced mod 256 to reflect
their C type). -/
def Reply_WRITPAGE (cfg : Cfg) (cmd : Nat → Nat) (mp : MemPack) : WPOut :=
  let M := cfg.mst_packet_size
  let r := writPageFill cfg cmd mp
  { mp :=
      if r.2.1 ≠ cmd (M + 1) % 256 ∨ (cfg.check_page_ix = true ∧ cfg.spm_pagesize < r.1.page_ix)
      then { r.1 with flags := r.1.flags ||| (1 <<< FL_DEL_FLASH) } else r.1,
    ops := r.2.2,
    reply0 := ACKWTPAG,
    reply1 :=
      if r.2.1 ≠ cmd (M + 1) % 256 ∨ (cfg.check_page_ix = true ∧ cfg.spm_pagesize < r.1.page_ix)
      then 0 else r.2.1 }

/-- 8-bit sum of the `n` buffer bytes starting at index `i` (each read
reduced mod 256; the total is reduced where it is used). -/
def sumBytes (cmd : Nat → Nat) : Nat → Nat → Nat
  | _, 0 => 0
  | i, n + 1 => cmd i % 256 + sumBytes cmd (i + 1) n

/-- The trampoline word computed in `main` (`timonel.c` lines 306 and
315) from the saved application reset vector, with AVR 16-bit `int`
arithmetic made explicit:
`(((~((TIMONEL_START >> 1) - (((msb << 8 | lsb) + 1) & 0x0FFF)) + 1) & 0x0FFF) | 0xC000)`. -/
def trampoline (ts lsb msb : Nat) : Nat :=
  let vec := ((msb % 256) <<< 8) ||| (lsb % 256)
  let d := ((ts % 65536) >>> 1 + 65536 - (vec + 1) % 4096) % 65536
  let n := (65535 - d + 1) % 65536
  (n % 4096) ||| 0xC000

/-- The DELFLASH erase loop of `main` (`timonel.c` lines 268-272):
`page_to_del` starts at `TIMONEL_START` and, while it differs from
`RESET_PAGE`, is decremented by `SPM_PAGESIZE` (as a `uint16_t`) and
`boot_page_erase(page_to_del)` is issued.  The first argument bounds the
number of iterations; `none` means the bound was exhausted before the
loop condition became false (i.e. the C loop runs longer, or forever). -/
def delFlashLoop (pagesize : Nat) : Nat → Nat → Option (List Nat)
  | 0, p => if p = RESET_PAGE then some [] else none
  | fuel + 1, p =>
    if p = RESET_PAGE then some []
    else
      let p1 := (p + 65536 - pagesize % 65536) % 65536
      (delFlashLoop pagesize fuel p1).map (p1 :: ·)

/-- The page base addresses `(k-1)·P, (k-2)·P, …, 0` in the order the
DELFLASH loop erases them. -/
def erasePages (P : Nat) : Nat → List Nat
  | 0 => []
  | k + 1 => k * P :: erasePages P k

/-- The `OverflowState` enumeration of the driver (`timonel.c` lines
62-69). -/
inductive DeviceState where
  | checkReceivedAddress
  | sendDataByte
  | receiveAckAfterSendingData
  | checkReceivedAck
  | receiveDataByte
  | putByteInRxBufferAndSendAck
deriving DecidableEq

/-- USI register configurations issued by the overflow handler, recorded
as events: `SET_USI_TO_SEND_ACK`, `SET_USI_TO_WAIT_FOR_TWI_ADDRESS`
(re-arm START detection, overflow interrupt off), `SET_USI_TO_SEND_BYTE`
with the byte loaded into `USIDR`, `SET_USI_TO_RECEIVE_ACK` and
`SET_USI_TO_RECEIVE_BYTE`. -/
inductive UsiAction where
  | sendAck
  | waitForTwiAddress
  | sendByte (b : Nat)
  | receiveAck
  | receiveByte
deriving DecidableEq

/-- The driver state shared between the engine and the handlers:
`device_state`, the two rings and the `MemPack`. -/
structure Engine where
  state : DeviceState
  rx : RxRing
  tx : TxRing
  mp : MemPack

/-- External inputs of one main-loop iteration: the USI status flags, the
shifted-in byte in `USIDR`, whether the start handler's busy-wait ended on
a STOP condition, and the read-only environment (program flash contents,
low fuse byte, oscillator calibration). -/
structure Env where
  startFlag : Bool
  stopSeen : Bool
  ovfFlag : Bool
  usidr : Nat
  flash : Nat → Nat
  lowFuse : Nat
  osccal : Nat

/-- 16-bit little-endian flash read-back (`page_data = (*p & 0xFF);
page_data += ((*(++p) & 0xFF) << 8)`, `timonel.c` lines 320-321). -/
def flashWord (flash : Nat → Nat) (a : Nat) : Nat :=
  flash a % 256 + (flash (a + 1) % 256) * 256

/-- `Reply_GETTMNLV` (`timonel.c` lines 423-448): build the 12-byte
version reply, set `FL_INIT_1`, transmit the reply. -/
def Reply_GETTMNLV (cfg : Cfg) (env : Env) (mp : MemPack) :
    MemPack × List FlashOp × List Nat :=
  ({ mp with flags := mp.flags ||| (1 <<< FL_INIT_1) }, [],
   [ACKTMNLV, ID_CHAR_3, 1, 4, TML_FEATURES, TML_EXT_FEATURES,
    (Nat.land cfg.timonel_start 0xFF00) >>> 8, Nat.land cfg.timonel_start 0xFF,
    env.flash (cfg.timonel_start - 1) % 256, env.flash (cfg.timonel_start - 2) % 256,
    env.lowFuse % 256, env.osccal % 256])

/-- `Reply_EXITTMNL` (`timonel.c` lines 453-457): transmit the ACK and
set `FL_EXIT_TML`. -/
def Reply_EXITTMNL (mp : MemPack) : MemPack × List FlashOp × List Nat :=
  ({ mp with flags := mp.flags ||| (1 <<< FL_EXIT_TML) }, [], [ACKEXITT])

/-- `Reply_DELFLASH` (`timonel.c` lines 462-466): transmit the ACK and
set `FL_DEL_FLASH`. -/
def Reply_DELFLASH (mp : MemPack) : MemPack × List FlashOp × List Nat :=
  ({ mp with flags := mp.flags ||| (1 <<< FL_DEL_FLASH) }, [], [ACKDELFL])

/-- `Reply_STPGADDR` (`timonel.c` lines 472-482): store the page base
address from the two argument bytes, masked to page alignment
(`page_addr &= ~(SPM_PAGESIZE - 1)` on a `uint16_t`), and reply with the
8-bit sum of the two bytes. -/
def Reply_STPGADDR (cfg : Cfg) (cmd : Nat → Nat) (mp : MemPack) :
    MemPack × List FlashOp × List Nat :=
  let a := ((cmd 1 % 256) <<< 8 + cmd 2 % 256) % 65536
  ({ mp with page_addr := Nat.land a (65536 - cfg.spm_pagesize) }, [],
   [AKPGADDR, (cmd 1 % 256 + cmd 2 % 256) % 256])

/-- `Reply_READFLSH` (`timonel.c` lines 533-555): reply with the ACK, the
requested flash bytes, and the 8-bit checksum of those bytes plus the two
address bytes. -/
def Reply_READFLSH (env : Env) (cmd : Nat → Nat) (mp : MemPack) :
    MemPack × List FlashOp × List Nat :=
  let base := ((cmd 1 % 256) <<< 8 + cmd 2 % 256) % 65536
  let len := cmd 3 % 256
  let data := (List.range len).map (fun i => env.flash (base + i) % 256)
  let ck := (data.sum + cmd 1 % 256 + cmd 2 % 256) % 256
  (mp, [], ACKRDFSH :: data ++ [ck])

/-- `Reply_INITSOFT` (`timonel.c` lines 561-565): set `FL_INIT_2` and
transmit the ACK. -/
def Reply_INITSOFT (mp : MemPack) : MemPack × List FlashOp × List Nat :=
  ({ mp with flags := mp.flags ||| (1 <<< FL_INIT_2) }, [], [ACKINITS])

/-- `ReceiveEvent` (`timonel.c` lines 381-418): dispatch on the opcode in
`command[0]`.  The `STPGADDR`, `READFLSH` and `INITSOFT` cases exist only
under their compile-time toggles; an unknown opcode returns without
enqueuing any reply. -/
def ReceiveEvent (cfg : Cfg) (env : Env) (cmd : Nat → Nat) (mp : MemPack) :
    MemPack × List FlashOp × List Nat :=
  let op := cmd 0 % 256
  if op = GETTMNLV then Reply_GETTMNLV cfg env mp
  else if op = EXITTMNL then Reply_EXITTMNL mp
  else if op = DELFLASH then Reply_DELFLASH mp
  else if (cfg.cmd_setpgaddr = true ∨ cfg.auto_page_addr = false) ∧ op = STPGADDR then
    Reply_STPGADDR cfg cmd mp
  else if op = WRITPAGE then
    let r := Reply_WRITPAGE cfg cmd mp
    (r.mp, r.ops, [r.reply0, r.reply1])
  else if cfg.cmd_readflash = true ∧ op = READFLSH then Reply_READFLSH env cmd mp
  else if cfg.two_step_init = true ∧ op = INITSOFT then Reply_INITSOFT mp
  else (mp, [], [])

/-- Result of one `UsiOverflowHandler` invocation: the updated driver
state, the returned boolean (the slow-op permission), the USI actions and
flash operations performed, and whether a `UsiTwiTransmitByte` call inside
a handler blocked forever on a full TX ring (`stuck`). -/
structure StepOut where
  eng : Engine
  slow : Bool
  actions : List UsiAction
  ops : List FlashOp
  stuck : Bool

/-- The `STATE_SEND_DATA_BYTE` case of the overflow handler (`timonel.c`
lines 698-713), also reached from `STATE_CHECK_RECEIVED_ACK` by the
deliberate fall-through. -/
def sendDataCase (e : Engine) : StepOut :=
  match txPop e.tx with
  | some (b, tx1) =>
    { eng := { e with state := .receiveAckAfterSendingData, tx := tx1 },
      slow := false, actions := [.sendByte b], ops := [], stuck := false }
  | none =>
    { eng := e, slow := false, actions := [.receiveAck, .waitForTwiAddress],
      ops := [], stuck := false }

/-- The command drain of the dispatcher call site (`timonel.c` lines
657-663): pop `command_size = rx_byte_count` bytes from the RX ring into
the local command frame. -/
def drainCommand (rx : RxRing) : Nat → List Nat × RxRing
  | 0 => ([], rx)
  | n + 1 =>
    let (b, rx1) := rxPop rx
    let (rest, rx2) := drainCommand rx1 n
    (b :: rest, rx2)

/-- `UsiOverflowHandler` (`timonel.c` lines 647-750): dispatch on
`device_state`; the returned boolean enables slow operations in `main`. -/
def UsiOverflowHandler (cfg : Cfg) (env : Env) (e : Engine) : StepOut :=
  match e.state with
  | .checkReceivedAddress =>
    let a := env.usidr % 256
    if a = 0 ∨ a >>> 1 = cfg.twi_addr then
      if a % 2 = 1 then
        let cs := e.rx.count
        let dc := drainCommand e.rx cs
        let rr := ReceiveEvent cfg env (fun i => dc.1.getD i 0) e.mp
        match txPushList e.tx rr.2.2 with
        | none =>
          { eng := e, slow := false, actions := [.sendAck], ops := rr.2.1, stuck := true }
        | some tx1 =>
          { eng := { state := .sendDataByte, rx := dc.2, tx := tx1, mp := rr.1 },
            slow := false, actions := [.sendAck], ops := rr.2.1, stuck := false }
      else
        { eng := { e with state := .receiveDataByte }, slow := false,
          actions := [.sendAck], ops := [], stuck := false }
    else
      { eng := e, slow := false, actions := [.waitForTwiAddress], ops := [],
        stuck := false }
  | .checkReceivedAck =>
    if env.usidr % 256 ≠ 0 then
      { eng := e, slow := true, actions := [.waitForTwiAddress], ops := [],
        stuck := false }
    else sendDataCase e
  | .sendDataByte => sendDataCase e
  | .receiveAckAfterSendingData =>
    { eng := { e with state := .checkReceivedAck }, slow := false,
      actions := [.receiveAck], ops := [], stuck := false }
  | .receiveDataByte =>
    { eng := { e with state := .putByteInRxBufferAndSendAck }, slow := false,
      actions := [.receiveByte], ops := [], stuck := false }
  | .putByteInRxBufferAndSendAck =>
    { eng := { e with state := .receiveDataByte, rx := rxPush e.rx env.usidr },
      slow := false, actions := [.sendAck], ops := [], stuck := false }

/-- `TwiStartHandler` (`timonel.c` lines 617-640): float SDA, set
`device_state` to `STATE_CHECK_RECEIVED_ADDRESS`, busy-wait for the start
condition to complete, then arm either RESTART detection (overflow
interrupt on) or plain START detection (overflow interrupt off) depending
on whether a STOP was observed; the register effects are applied by the
caller from `Env.stopSeen`. -/
def TwiStartHandler (e : Engine) : Engine :=
  { e with state := .checkReceivedAddress }

/-- Ways the infinite main loop can leave or lose the loop: exit to the
application (`RunApplication()`), restart the bootloader after DELFLASH
(`RestartTimonel()` with `USE_WDT_RESET` off), or spin forever inside one
iteration (a blocked busy-wait or a non-terminating erase loop). -/
inductive Halt where
  | runApp
  | restart
  | hang
deriving DecidableEq

/-- The mutable state of `main` threaded through loop iterations: the
driver state, `slow_ops_enabled`, whether the USI overflow interrupt is
armed (`USICR` bit `USI_OVERFLOW_INT`; the START interrupt is enabled by
every configuration the driver writes), and the two pre-initialization
delay counters (`uint16_t led_delay`, `uint8_t exit_delay`). -/
structure LoopState where
  eng : Engine
  slow : Bool
  ovfInt : Bool
  led_delay : Nat
  exit_delay : Nat

/-- Observables of one main-loop iteration: the successor state, the
flash operations performed, whether `UsiOverflowHandler` ran and what it
returned, whether the slow-op section ran (draining `slow_ops_enabled`),
and whether the loop ended. -/
structure IterOut where
  ls : LoopState
  ops : List FlashOp
  handlerRes : Option Bool
  consumed : Bool
  halt : Option Halt

/-- The trampoline-page preparation loop (`timonel.c` lines 307-309):
`for (i = 0; i < SPM_PAGESIZE - 2; i += 2)` fills word `base + i` with
`0xFFFF`.  The first argument bounds the iterations (always called with
`limit`, which the loop cannot exhaust). -/
def tplFillLoop (base limit : Nat) : Nat → Nat → List FlashOp
  | 0, _ => []
  | fuel + 1, i =>
    if i < limit then FlashOp.fill (base + i) 0xFFFF :: tplFillLoop base limit fuel (i + 2)
    else []

/-- The trampoline-page read-back loop (`timonel.c` lines 318-323): fill
the temporary buffer with the flash contents of the page below
`TIMONEL_START`, word by word. -/
def readbackFillLoop (flash : Nat → Nat) (base limit : Nat) : Nat → Nat → List FlashOp
  | 0, _ => []
  | fuel + 1, i =>
    if i < limit then
      FlashOp.fill (base + i) (flashWord flash (base + i))
        :: readbackFillLoop flash base limit fuel (i + 2)
    else []

/-- Upper bound of `page_addr` for a page commit (`timonel.c` lines
292-296): `TIMONEL_START` when `APP_USE_TPL_PG` or `!AUTO_PAGE_ADDR`,
else `TIMONEL_START - SPM_PAGESIZE`. -/
def commitBound (cfg : Cfg) : Nat :=
  if cfg.app_use_tpl_pg = true ∨ cfg.auto_page_addr = false then cfg.timonel_start
  else cfg.timonel_start - cfg.spm_pagesize

/-- The slow-operations section of `main` (`timonel.c` lines 235-337),
entered with `slow_ops_enabled` already drained: exit to the application
when `FL_EXIT_TML` is set; else erase the whole application and restart
when `FL_DEL_FLASH` is set; else commit a completed page, handling the
reset-page trampoline (`AUTO_PAGE_ADDR`) and the trampoline-page
verification (`APP_USE_TPL_PG`). -/
def slowSection (cfg : Cfg) (env : Env) (e : Engine) :
    List FlashOp × Engine × Option Halt :=
  let mp := e.mp
  if mp.flags.testBit FL_EXIT_TML then ([], e, some .runApp)
  else if mp.flags.testBit FL_DEL_FLASH then
    match delFlashLoop cfg.spm_pagesize 65536 cfg.timonel_start with
    | some pages => (pages.map FlashOp.erase, e, some .restart)
    | none => ([], e, some .hang)
  else if mp.page_ix = cfg.spm_pagesize ∧ mp.page_addr < commitBound cfg then
    let base := (if cfg.force_erase_pg = true then [FlashOp.erase mp.page_addr] else [])
      ++ [FlashOp.write mp.page_addr]
    if cfg.auto_page_addr = true then
      let tpl := trampoline cfg.timonel_start mp.app_reset_lsb mp.app_reset_msb
      let tplBase := cfg.timonel_start - cfg.spm_pagesize
      let resetOps :=
        if mp.page_addr = RESET_PAGE then
          tplFillLoop tplBase (cfg.spm_pagesize - 2) (cfg.spm_pagesize - 2) 0
            ++ [FlashOp.fill (cfg.timonel_start - 2) tpl, FlashOp.write tplBase]
        else []
      let chk :=
        if cfg.app_use_tpl_pg = true ∧ mp.page_addr = tplBase then
          (readbackFillLoop env.flash tplBase (cfg.spm_pagesize - 2) (cfg.spm_pagesize - 2) 0,
           if flashWord env.flash (cfg.timonel_start - 2) ≠ tpl then
             { mp with flags := mp.flags ||| (1 <<< FL_DEL_FLASH) }
           else mp)
        else ([], mp)
      let mp2 := { chk.2 with page_addr := (chk.2.page_addr + cfg.spm_pagesize) % 65536,
                              page_ix := 0 }
      (base ++ resetOps ++ chk.1, { e with mp := mp2 }, none)
    else
      (base, { e with mp := { mp with page_ix := 0 } }, none)
  else ([], e, none)

/-- The part of a main-loop iteration after the two interrupt-emulation
polls (`timonel.c` lines 227-371): when the bootloader is initialized and
`slow_ops_enabled` holds, drain the flag and run the slow-operations
section; when not initialized, run the LED/timeout countdown
(`if (led_delay-- == 0)`, then `if (exit_delay-- == 0)` under
`TIMEOUT_EXIT`, exiting to the application on the second wrap). -/
def afterPoll (cfg : Cfg) (env : Env) (ls : LoopState) (hres : Option Bool)
    (hops : List FlashOp) : IterOut :=
  if ls.eng.mp.flags.testBit FL_INIT_1
      ∧ (cfg.two_step_init = true → ls.eng.mp.flags.testBit FL_INIT_2) then
    if ls.slow then
      let s := slowSection cfg env ls.eng
      { ls := { ls with eng := s.2.1, slow := false }, ops := hops ++ s.1,
        handlerRes := hres, consumed := true, halt := s.2.2 }
    else
      { ls := ls, ops := hops, handlerRes := hres, consumed := false, halt := none }
  else
    { ls :=
        { ls with
          led_delay := (ls.led_delay + 65535) % 65536,
          exit_delay :=
            if ls.led_delay = 0 ∧ cfg.timeout_exit = true then (ls.exit_delay + 255) % 256
            else ls.exit_delay },
      ops := hops, handlerRes := hres, consumed := false,
      halt :=
        if ls.led_delay = 0 ∧ cfg.timeout_exit = true ∧ ls.exit_delay = 0 then some .runApp
        else none }

/-- One iteration of the main loop (`timonel.c` lines 206-372): run the
start handler if its flag is up, run the overflow handler if its flag is
up and the overflow interrupt is armed (recording its result in
`slow_ops_enabled`), then the initialized/uninitialized tail.  A handler
stuck on a full TX ring hangs the iteration. -/
def mainLoopStep (cfg : Cfg) (env : Env) (ls : LoopState) : IterOut :=
  let e1 := if env.startFlag then TwiStartHandler ls.eng else ls.eng
  let ovf1 := if env.startFlag then !env.stopSeen else ls.ovfInt
  let ls1 : LoopState := { ls with eng := e1, ovfInt := ovf1 }
  if env.ovfFlag && ovf1 then
    let r := UsiOverflowHandler cfg env e1
    if r.stuck then
      { ls := ls1, ops := r.ops, handlerRes := some r.slow, consumed := false,
        halt := some .hang }
    else
      let ovf2 := if UsiAction.waitForTwiAddress ∈ r.actions then false else ovf1
      afterPoll cfg env { ls1 with eng := r.eng, slow := r.slow, ovfInt := ovf2 }
        (some r.slow) r.ops
  else
    afterPoll cfg env ls1 none []

/-- Run the main loop over a list of per-iteration environments,
collecting the iteration records; the loop stops at the first halting
iteration. -/
def runTrace (cfg : Cfg) : List Env → LoopState → List IterOut
  | [], _ => []
  | env :: rest, ls =>
    let r := mainLoopStep cfg env ls
    r :: (if r.halt = none then runTrace cfg rest r.ls else [])

/-! ### Concrete fixtures used by witnesses and counterexamples -/

/-- An empty RX ring. -/
def zeroRx : RxRing := { buf := fun _ => 0, head := 0, tail := 0, count := 0 }

/-- An empty TX ring. -/
def zeroTx : TxRing := { buf := fun _ => 0, head := 0, tail := 0 }

/-- A zero-initialized `MemPack` (as at the start of `main`). -/
def zeroMp : MemPack :=
  { page_addr := 0, page_ix := 0, flags := 0, app_reset_lsb := 0, app_reset_msb := 0 }

/-- A default iteration record, used only as the `List.getD` fallback in
trace statements. -/
def dummyIter : IterOut :=
  { ls :=
      { eng := { state := .checkReceivedAddress, rx := zeroRx, tx := zeroTx, mp := zeroMp },
        slow := false, ovfInt := false, led_delay := 0, exit_delay := 0 },
    ops := [], handlerRes := none, consumed := false, halt := none }

/-- A representative build configuration (`TIMONEL_START = 0x1A00`,
64-byte pages, 8-byte packets, TWI address 11, `AUTO_PAGE_ADDR` on). -/
def defaultCfg : Cfg :=
  { timonel_start := 0x1A00, spm_pagesize := 64, mst_packet_size := 8, twi_addr := 11,
    auto_page_addr := true, check_page_ix := true, cmd_setpgaddr := false,
    cmd_readflash := true, two_step_init := false, app_use_tpl_pg := false,
    force_erase_pg := false, timeout_exit := true }

/-- An RX ring holding its full capacity of 16 unread bytes, each `1`. -/
def fullRx : RxRing := { buf := fun _ => 1, head := 0, tail := 0, count := 16 }

/-- Engine about to store a received byte while the RX ring is full. -/
def engFullRx : Engine :=
  { state := .putByteInRxBufferAndSendAck, rx := fullRx, tx := zeroTx, mp := zeroMp }

/-- Environment delivering the byte `0xAA` in `USIDR`. -/
def envByte : Env :=
  { startFlag := false, stopSeen := false, ovfFlag := true, usidr := 0xAA,
    flash := fun _ => 0, lowFuse := 0, osccal := 0 }

/-- Engine waiting for the received address byte. -/
def engAddr : Engine :=
  { state := .checkReceivedAddress, rx := zeroRx, tx := zeroTx, mp := zeroMp }

/-- Environment delivering the address byte `0x50` (7-bit address 40,
not this device's, and not the general call). -/
def envAddr : Env :=
  { startFlag := false, stopSeen := false, ovfFlag := true, usidr := 0x50,
    flash := fun _ => 0, lowFuse := 0, osccal := 0 }

/-- A small configuration for the slow-op trace witness
(`TIMONEL_START = 256`, so the DELFLASH loop erases 4 pages). -/
def cfgW : Cfg :=
  { timonel_start := 256, spm_pagesize := 64, mst_packet_size := 8, twi_addr := 11,
    auto_page_addr := true, check_page_ix := true, cmd_setpgaddr := false,
    cmd_readflash := false, two_step_init := false, app_use_tpl_pg := false,
    force_erase_pg := false, timeout_exit := true }

/-- Engine awaiting the master's ACK/NACK, with `FL_INIT_1` and
`FL_DEL_FLASH` set (flags = 5). -/
def engW : Engine :=
  { state := .checkReceivedAck, rx := zeroRx, tx := zeroTx,
    mp := { page_addr := 0, page_ix := 0, flags := 5, app_reset_lsb := 0,
            app_reset_msb := 0 } }

/-- Environment delivering a NACK (`USIDR = 1`) with the overflow flag up. -/
def envW : Env :=
  { startFlag := false, stopSeen := false, ovfFlag := true, usidr := 1,
    flash := fun _ => 0, lowFuse := 0, osccal := 0 }

/-- Loop state for the slow-op trace witness: overflow interrupt armed,
`slow_ops_enabled` clear. -/
def lsW : LoopState :=
  { eng := engW, slow := false, ovfInt := true, led_delay := 100, exit_delay := 10 }

/-! ### Arithmetic helpers -/

/-- Adding a 14-bit value to `0xC000` coincides with bitwise or. -/
theorem c000_add_eq_or {x : Nat} (hx : x < 16384) : 0xC000 + x = 0xC000 ||| x := by
  have h := Nat.mul_add_lt_is_or (i := 14) (a := 3) hx
  norm_num at h
  norm_num [h]

/-! ### `fillLoop` lemmas -/

/-- `fillLoop` never changes `page_addr`. -/
theorem fillLoop_page_addr (cmd : Nat → Nat) (M : Nat) :
    ∀ fuel i mp ck acc, (fillLoop cmd M fuel i mp ck acc).1.page_addr = mp.page_addr := by
  intro fuel
  induction fuel with
  | zero => intro i mp ck acc; simp [fillLoop]
  | succ n ih =>
    intro i mp ck acc
    by_cases h : i < M + 1
    · simpa [fillLoop, h] using ih (i + 2) { mp with page_ix := (mp.page_ix + 2) % 256 } _ _
    · simp [fillLoop, h]

/-- `fillLoop` never changes `flags`. -/
theorem fillLoop_flags (cmd : Nat → Nat) (M : Nat) :
    ∀ fuel i mp ck acc, (fillLoop cmd M fuel i mp ck acc).1.flags = mp.flags := by
  intro fuel
  induction fuel with
  | zero => intro i mp ck acc; simp [fillLoop]
  | succ n ih =>
    intro i mp ck acc
    by_cases h : i < M + 1
    · simpa [fillLoop, h] using ih (i + 2) { mp with page_ix := (mp.page_ix + 2) % 256 } _ _
    · simp [fillLoop, h]

/-- `fillLoop` never changes the saved reset-vector LSB. -/
theorem fillLoop_lsb (cmd : Nat → Nat) (M : Nat) :
    ∀ fuel i mp ck acc, (fillLoop cmd M fuel i mp ck acc).1.app_reset_lsb = mp.app_reset_lsb := by
  intro fuel
  induction fuel with
  | zero => intro i mp ck acc; simp [fillLoop]
  | succ n ih =>
    intro i mp ck acc
    by_cases h : i < M + 1
    · simpa [fillLoop, h] using ih (i + 2) { mp with page_ix := (mp.page_ix + 2) % 256 } _ _
    · simp [fillLoop, h]

/-- `fillLoop` never changes the saved reset-vector MSB. -/
theorem fillLoop_msb (cmd : Nat → Nat) (M : Nat) :
    ∀ fuel i mp ck acc, (fillLoop cmd M fuel i mp ck acc).1.app_reset_msb = mp.app_reset_msb := by
  intro fuel
  induction fuel with
  | zero => intro i mp ck acc; simp [fillLoop]
  | succ n ih =>
    intro i mp ck acc
    by_cases h : i < M + 1
    · simpa [fillLoop, h] using ih (i + 2) { mp with page_ix := (mp.page_ix + 2) % 256 } _ _
    · simp [fillLoop, h]

/-- The first accumulated operation stays at the head of the emitted
operation list. -/
theorem fillLoop_head (cmd : Nat → Nat) (M : Nat) :
    ∀ fuel i mp ck op acc,
      (fillLoop cmd M fuel i mp ck (op :: acc)).2.2.head? = some op := by
  intro fuel
  induction fuel with
  | zero => intro i mp ck op acc; simp [fillLoop]
  | succ n ih =>
    intro i mp ck op acc
    by_cases h : i < M + 1
    · simp only [fillLoop, if_pos h, List.cons_append]
      exact ih (i + 2) _ _ op _
    · simp [fillLoop, h]

/-- `fillLoop` only appends to the accumulated operation list. -/
theorem fillLoop_acc (cmd : Nat → Nat) (M : Nat) :
    ∀ fuel i mp ck acc, ∃ tl, (fillLoop cmd M fuel i mp ck acc).2.2 = acc ++ tl := by
  intro fuel
  induction fuel with
  | zero => intro i mp ck acc; exact ⟨[], by simp [fillLoop]⟩
  | succ n ih =>
    intro i mp ck acc
    by_cases h : i < M + 1
    · obtain ⟨tl, htl⟩ := ih (i + 2) { mp with page_ix := (mp.page_ix + 2) % 256 }
        ((ck + (cmd (i + 1) % 256 + cmd i % 256) % 256) % 256)
        (acc ++ [FlashOp.fill ((mp.page_addr + mp.page_ix) % 65536)
          (((cmd (i + 1) % 256) <<< 8) ||| (cmd i % 256))])
      exact ⟨_, by simp only [fillLoop, if_pos h]; rw [htl, List.append_assoc]⟩
    · exact ⟨[], by simp [fillLoop, h]⟩

/-- `fillLoop` emits only `fill` operations. -/
theorem fillLoop_fills (cmd : Nat → Nat) (M : Nat) :
    ∀ fuel i mp ck acc, (∀ op ∈ acc, isSlowOp op = false) →
      ∀ op ∈ (fillLoop cmd M fuel i mp ck acc).2.2, isSlowOp op = false := by
  intro fuel
  induction fuel with
  | zero => intro i mp ck acc hacc; simpa [fillLoop] using hacc
  | succ n ih =>
    intro i mp ck acc hacc
    by_cases h : i < M + 1
    · simp only [fillLoop, if_pos h]
      refine ih (i + 2) _ _ _ ?_
      intro op hop
      rcases List.mem_append.mp hop with hl | hr
      · exact hacc op hl
      · rcases List.mem_singleton.mp hr with rfl
        rfl
    · simpa [fillLoop, h] using hacc

/-- Main behaviour of the WRITPAGE fill loop, run over the byte pairs
`i, i+1, …, M-1, M`: `page_ix` advances by the number of bytes consumed,
the checksum accumulator adds their 8-bit sum, and one `fill` is emitted
per pair.  Requires enough iteration budget and an even byte count. -/
theorem fillLoop_spec (cmd : Nat → Nat) (M : Nat) :
    ∀ fuel i mp ck acc, M + 1 ≤ fuel + i → 2 ∣ (M + 1 - i) → mp.page_ix < 256 → ck < 256 →
      (fillLoop cmd M fuel i mp ck acc).1.page_ix = (mp.page_ix + (M + 1 - i)) % 256 ∧
      (fillLoop cmd M fuel i mp ck acc).2.1 = (ck + sumBytes cmd i (M + 1 - i)) % 256 ∧
      (fillLoop cmd M fuel i mp ck acc).2.2.length = acc.length + (M + 1 - i) / 2 := by
  intro fuel
  induction fuel with
  | zero =>
    intro i mp ck acc hfuel hpar hpix hck
    have h0 : M + 1 - i = 0 := by omega
    simp [fillLoop, h0, sumBytes, Nat.mod_eq_of_lt hpix, Nat.mod_eq_of_lt hck]
  | succ n ih =>
    intro i mp ck acc hfuel hpar hpix hck
    by_cases h : i < M + 1
    · have hge : 2 ≤ M + 1 - i := by omega
      obtain ⟨m, hm⟩ : ∃ m, M + 1 - i = m + 2 := ⟨M + 1 - i - 2, by omega⟩
      have hrec := ih (i + 2) { mp with page_ix := (mp.page_ix + 2) % 256 }
        ((ck + (cmd (i + 1) % 256 + cmd i % 256) % 256) % 256)
        (acc ++ [FlashOp.fill ((mp.page_addr + mp.page_ix) % 65536)
          (((cmd (i + 1) % 256) <<< 8) ||| (cmd i % 256))])
        (by omega) (by omega) (Nat.mod_lt _ (by omega)) (Nat.mod_lt _ (by omega))
      have hm2 : M + 1 - (i + 2) = m := by omega
      rw [hm2] at hrec
      have hsum : sumBytes cmd i (M + 1 - i) =
          cmd i % 256 + (cmd (i + 1) % 256 + sumBytes cmd (i + 2) m) := by
        rw [hm]; simp [sumBytes]
      simp only [fillLoop, if_pos h]
      refine ⟨?_, ?_, ?_⟩
      · rw [hrec.1]; simp only []; omega
      · rw [hrec.2.1, hsum]; omega
      · rw [hrec.2.2]; simp only [List.length_append, List.length_singleton]; omega
    · have h0 : M + 1 - i = 0 := by omega
      simp [fillLoop, h, h0, sumBytes, Nat.mod_eq_of_lt hpix, Nat.mod_eq_of_lt hck]

/-! ### `writPageFill` lemmas -/

/-- Behaviour of the WRITPAGE fill stage for an even, positive packet
size: the checksum accumulator ends at the 8-bit sum of the
`MST_PACKET_SIZE` payload bytes, `page_ix` advances by
`MST_PACKET_SIZE` (mod 256), `page_addr` and `flags` are untouched, and
one `boot_page_fill` is issued per byte pair. -/
theorem writPageFill_spec (cfg : Cfg) (cmd : Nat → Nat) (mp : MemPack)
    (h2 : 2 ∣ cfg.mst_packet_size) (h0 : 0 < cfg.mst_packet_size)
    (hpix : mp.page_ix < 256) :
    (writPageFill cfg cmd mp).2.1 = sumBytes cmd 1 cfg.mst_packet_size % 256 ∧
    (writPageFill cfg cmd mp).1.page_ix = (mp.page_ix + cfg.mst_packet_size) % 256 ∧
    (writPageFill cfg cmd mp).1.page_addr = mp.page_addr ∧
    (writPageFill cfg cmd mp).1.flags = mp.flags ∧
    (writPageFill cfg cmd mp).2.2.length = cfg.mst_packet_size / 2 := by
  obtain ⟨m, hm⟩ : ∃ m, cfg.mst_packet_size = m + 2 := ⟨cfg.mst_packet_size - 2, by omega⟩
  simp only [writPageFill]
  split
  · set mp0 := (if cfg.auto_page_addr = true then
        { mp with app_reset_lsb := cmd 1 % 256, app_reset_msb := cmd 2 % 256 }
      else mp) with hmp0
    have hpix0 : mp0.page_ix = mp.page_ix := by rw [hmp0]; split <;> rfl
    have hfl0 : mp0.flags = mp.flags := by rw [hmp0]; split <;> rfl
    have hpa0 : mp0.page_addr = mp.page_addr := by rw [hmp0]; split <;> rfl
    have hf := fillLoop_spec cmd cfg.mst_packet_size (cfg.mst_packet_size + 1) 3
      { mp0 with page_ix := (mp0.page_ix + 2) % 256 }
      ((cmd 2 % 256 + cmd 1 % 256) % 256)
      [FlashOp.fill RESET_PAGE ((0xC000 + (cfg.timonel_start / 2 - 1)) % 65536)]
      (by omega) (by omega)
      (by show (mp0.page_ix + 2) % 256 < 256; omega) (by omega)
    have h3 : cfg.mst_packet_size + 1 - 3 = m := by omega
    rw [h3] at hf
    have hs : sumBytes cmd 1 cfg.mst_packet_size =
        cmd 1 % 256 + (cmd 2 % 256 + sumBytes cmd 3 m) := by
      rw [hm]; simp [sumBytes]
    refine ⟨?_, ?_, ?_, ?_, ?_⟩
    · rw [hf.2.1, hs]
      omega
    · rw [hf.1]
      show ((mp0.page_ix + 2) % 256 + m) % 256 = _
      rw [hpix0, hm]
      omega
    · rw [fillLoop_page_addr]
      show mp0.page_addr = mp.page_addr
      exact hpa0
    · rw [fillLoop_flags]
      show mp0.flags = mp.flags
      exact hfl0
    · rw [hf.2.2]
      show 1 + m / 2 = cfg.mst_packet_size / 2
      omega
  · have hf := fillLoop_spec cmd cfg.mst_packet_size (cfg.mst_packet_size + 1) 1
      mp 0 [] (by omega) (by simpa using h2) hpix (by omega)
    have h1 : cfg.mst_packet_size + 1 - 1 = cfg.mst_packet_size := by omega
    rw [h1] at hf
    refine ⟨?_, ?_, ?_, ?_, ?_⟩
    · rw [hf.2.1]
      omega
    · exact hf.1
    · rw [fillLoop_page_addr]
    · rw [fillLoop_flags]
    · rw [hf.2.2]
      simp

/-- The reset-page branch of the WRITPAGE fill stage (auto-page-address
mode): the two first payload bytes are saved as the application reset
vector, and the first emitted `boot_page_fill` targets flash word 0 with
the jump-to-bootloader word. -/
theorem writPageFill_reset (cfg : Cfg) (cmd : Nat → Nat) (mp : MemPack)
    (hauto : cfg.auto_page_addr = true)
    (hreset : (mp.page_addr + mp.page_ix) % 65536 = RESET_PAGE) :
    (writPageFill cfg cmd mp).1.app_reset_lsb = cmd 1 % 256 ∧
    (writPageFill cfg cmd mp).1.app_reset_msb = cmd 2 % 256 ∧
    (writPageFill cfg cmd mp).2.2.head? =
      some (FlashOp.fill RESET_PAGE ((0xC000 + (cfg.timonel_start / 2 - 1)) % 65536)) := by
  simp only [writPageFill]
  rw [if_pos hreset, if_pos hauto]
  refine ⟨?_, ?_, ?_⟩
  · rw [fillLoop_lsb]
  · rw [fillLoop_msb]
  · rw [fillLoop_head]

/-! ### DELFLASH erase-loop lemmas -/

/-- One `uint16_t` subtraction step of the erase loop. -/
theorem delFlash_step (P q : Nat) (hq : q + P < 65536) :
    (q + P + 65536 - P % 65536) % 65536 = q := by
  have hPlt : P % 65536 = P := Nat.mod_eq_of_lt (by omega)
  rw [hPlt]
  omega

/-- With `TIMONEL_START = k·P` and enough fuel, the erase loop performs
exactly the `k` erasures of `erasePages P k`. -/
theorem delFlashLoop_run (P : Nat) (hP : 0 < P) :
    ∀ k f, k * P < 65536 → delFlashLoop P (k + f) (k * P) = some (erasePages P k) := by
  intro k
  induction k with
  | zero => intro f hk; cases f <;> simp [delFlashLoop, erasePages, RESET_PAGE]
  | succ n ih =>
    intro f hk
    have e1 : (n + 1) * P = n * P + P := by ring
    rw [e1] at hk ⊢
    have hpos : ¬ (n * P + P = 0) := by omega
    have hfuel : n + 1 + f = (n + f) + 1 := by omega
    rw [hfuel]
    simp only [delFlashLoop, RESET_PAGE, if_neg hpos, delFlash_step P (n * P) hk]
    rw [ih f (by omega)]
    simp [erasePages]

/-- With fuel below `k`, the erase loop does not finish. -/
theorem delFlashLoop_short (P : Nat) (hP : 0 < P) :
    ∀ j k, k * P < 65536 → j < k → delFlashLoop P j (k * P) = none := by
  intro j
  induction j with
  | zero =>
    intro k hk hj
    have hkpos : ¬ (k * P = 0) := by
      have : 0 < k * P := Nat.mul_pos (by omega) hP
      omega
    simp [delFlashLoop, RESET_PAGE, hkpos]
  | succ n ih =>
    intro k hk hj
    obtain ⟨m, rfl⟩ : ∃ m, k = m + 1 := ⟨k - 1, by omega⟩
    have e1 : (m + 1) * P = m * P + P := by ring
    rw [e1] at hk ⊢
    have hpos : ¬ (m * P + P = 0) := by omega
    simp only [delFlashLoop, RESET_PAGE, if_neg hpos, delFlash_step P (m * P) hk]
    rw [ih m (by omega) (by omega)]
    rfl

/-- Membership in the erase schedule. -/
theorem erasePages_mem (P : Nat) :
    ∀ k a, a ∈ erasePages P k ↔ ∃ i, i < k ∧ a = i * P := by
  intro k
  induction k with
  | zero => intro a; simp [erasePages]
  | succ n ih =>
    intro a
    simp only [erasePages, List.mem_cons, ih]
    constructor
    · rintro (rfl | ⟨i, hi, rfl⟩)
      · exact ⟨n, by omega, rfl⟩
      · exact ⟨i, by omega, rfl⟩
    · rintro ⟨i, hi, rfl⟩
      rcases Nat.lt_succ_iff_lt_or_eq.mp hi with h | rfl
      · exact Or.inr ⟨i, h, rfl⟩
      · exact Or.inl rfl

/-- The erase schedule visits each page once. -/
theorem erasePages_nodup (P : Nat) (hP : 0 < P) : ∀ k, (erasePages P k).Nodup := by
  intro k
  induction k with
  | zero => simp [erasePages]
  | succ n ih =>
    simp only [erasePages, List.nodup_cons]
    refine ⟨fun hmem => ?_, ih⟩
    obtain ⟨i, hi, heq⟩ := (erasePages_mem P n _).mp hmem
    have : n = i := Nat.eq_of_mul_eq_mul_right hP heq
    omega

/-- Length of the erase schedule. -/
theorem erasePages_length (P : Nat) : ∀ k, (erasePages P k).length = k := by
  intro k
  induction k with
  | zero => simp [erasePages]
  | succ n ih => simp [erasePages, ih]

/-! ### Ring-buffer lemmas -/

/-- Enqueuing `s` into the TX ring succeeds when none of the slots to be
written collides with `tx_tail`, moves `tx_head` forward by `s.length`,
stores the bytes of `s` at the successive slots after the old head, and
leaves every other slot unchanged. -/
theorem txPushList_ok :
    ∀ (s : List Nat) (st : TxRing), st.head < 16 → st.tail < 16 → s.length ≤ 15 →
      (∀ k, k < s.length → (st.head + k + 1) % 16 ≠ st.tail) →
      ∃ st1, txPushList st s = some st1 ∧
        st1.head = (st.head + s.length) % 16 ∧ st1.tail = st.tail ∧
        (∀ i, (hi : i < s.length) →
          st1.buf ((st.head + i + 1) % 16) = s.get ⟨i, hi⟩ % 256) ∧
        (∀ j, (∀ k, k < s.length → (st.head + k + 1) % 16 ≠ j) → st1.buf j = st.buf j) := by
  intro s
  induction s with
  | nil =>
    intro st hh ht hlen hcol
    exact ⟨st, rfl, by show st.head = (st.head + 0) % 16; omega, rfl,
      fun i hi => absurd hi (by simp), fun j _ => rfl⟩
  | cons b t ih =>
    intro st hh ht hlen hcol
    have hlt : t.length < 15 := by
      simp only [List.length_cons] at hlen
      omega
    have h1ne : (st.head + 1) % 16 ≠ st.tail := by
      have := hcol 0 (by simp)
      omega
    have hpush : txPush st b =
        some { buf := upd st.buf ((st.head + 1) % 16) (b % 256),
               head := (st.head + 1) % 16, tail := st.tail } := by
      simp [txPush, RING_SIZE, h1ne]
    obtain ⟨st1, heq, hhead, htail, hget, hpres⟩ :=
      ih { buf := upd st.buf ((st.head + 1) % 16) (b % 256),
           head := (st.head + 1) % 16, tail := st.tail }
        (Nat.mod_lt _ (by omega)) ht (by omega)
        (by
          intro k hk
          have := hcol (k + 1) (by simp only [List.length_cons]; omega)
          show ((st.head + 1) % 16 + k + 1) % 16 ≠ st.tail
          omega)
    refine ⟨st1, ?_, ?_, htail, ?_, ?_⟩
    · simp only [txPushList, hpush]
      exact heq
    · rw [hhead]
      show ((st.head + 1) % 16 + t.length) % 16 = (st.head + (b :: t).length) % 16
      simp only [List.length_cons]
      omega
    · intro i hi
      match i with
      | 0 =>
        have hidx : ∀ k, k < t.length →
            (((st.head + 1) % 16) + k + 1) % 16 ≠ (st.head + 1) % 16 := by
          intro k hk
          omega
        have hkeep := hpres ((st.head + 1) % 16) hidx
        rw [show (st.head + 0 + 1) % 16 = (st.head + 1) % 16 from by omega, hkeep]
        show upd st.buf ((st.head + 1) % 16) (b % 256) ((st.head + 1) % 16) = _
        simp [upd]
      | Nat.succ i' =>
        have hidx : (st.head + (i' + 1) + 1) % 16 = (((st.head + 1) % 16) + i' + 1) % 16 := by
          omega
        rw [hidx]
        have hi' : i' < t.length := by
          simp only [List.length_cons] at hi
          omega
        rw [hget i' hi']
        rfl
    · intro j hj
      have h1 : st1.buf j = upd st.buf ((st.head + 1) % 16) (b % 256) j := by
        refine hpres j ?_
        intro k hk
        have := hj (k + 1) (by simp only [List.length_cons]; omega)
        show ((st.head + 1) % 16 + k + 1) % 16 ≠ j
        omega
      rw [h1]
      have hne : ¬ (j = (st.head + 1) % 16) := by
        have := hj 0 (by simp)
        omega
      simp [upd, hne]

/-- Dequeuing `n` bytes from the TX ring succeeds when none of the slots
to be read has caught up with `tx_head`, and reads the successive slots
after `tx_tail`. -/
theorem txPopN_ok :
    ∀ (n : Nat) (st : TxRing), st.tail < 16 →
      (∀ i, i < n → (st.tail + i) % 16 ≠ st.head) →
      txPopN st n = some ((List.range n).map (fun i => st.buf ((st.tail + i + 1) % 16))) := by
  intro n
  induction n with
  | zero => intro st ht hcol; simp [txPopN]
  | succ m ih =>
    intro st ht hcol
    have hne : ¬ (st.head = st.tail) := by
      have := hcol 0 (by omega)
      omega
    have hpop : txPop st =
        some (st.buf ((st.tail + 1) % 16),
          { buf := st.buf, head := st.head, tail := (st.tail + 1) % 16 }) := by
      simp [txPop, RING_SIZE, hne]
    have hrec := ih { buf := st.buf, head := st.head, tail := (st.tail + 1) % 16 }
      (Nat.mod_lt _ (by omega))
      (by
        intro i hi
        have := hcol (i + 1) (by omega)
        show ((st.tail + 1) % 16 + i) % 16 ≠ st.head
        omega)
    simp only [txPopN, hpop, hrec]
    rw [List.range_succ_eq_map]
    simp only [Option.map_some', List.map_cons, List.map_map, Option.some.injEq,
      List.cons.injEq]
    constructor
    · norm_num
    · refine List.map_congr_left ?_
      intro a ha
      simp only [Function.comp_apply]
      congr 1
      omega

/-- Enqueuing into the RX ring never blocks: head advance. -/
theorem rxPushList_head :
    ∀ (s : List Nat) (st : RxRing), st.head < 16 →
      (rxPushList st s).head = (st.head + s.length) % 16 := by
  intro s
  induction s with
  | nil => intro st hh; show st.head = (st.head + 0) % 16; omega
  | cons b t ih =>
    intro st hh
    show (rxPushList (rxPush st b) t).head = _
    rw [ih (rxPush st b) (by show (st.head + 1) % 16 < 16; omega)]
    show ((st.head + 1) % 16 + t.length) % 16 = (st.head + (b :: t).length) % 16
    simp only [List.length_cons]
    omega

/-- Enqueuing into the RX ring leaves the tail unchanged. -/
theorem rxPushList_tail :
    ∀ (s : List Nat) (st : RxRing), (rxPushList st s).tail = st.tail := by
  intro s
  induction s with
  | nil => intro st; rfl
  | cons b t ih =>
    intro st
    show (rxPushList (rxPush st b) t).tail = _
    rw [ih (rxPush st b)]
    rfl

/-- Enqueuing into the RX ring adds the element count, mod 256. -/
theorem rxPushList_count :
    ∀ (s : List Nat) (st : RxRing), st.count < 256 →
      (rxPushList st s).count = (st.count + s.length) % 256 := by
  intro s
  induction s with
  | nil => intro st hc; show st.count = (st.count + 0) % 256; omega
  | cons b t ih =>
    intro st hc
    show (rxPushList (rxPush st b) t).count = _
    rw [ih (rxPush st b) (by show (st.count + 1) % 256 < 256; omega)]
    show ((st.count + 1) % 256 + t.length) % 256 = (st.count + (b :: t).length) % 256
    simp only [List.length_cons]
    omega

/-- Enqueuing `s` into the RX ring stores the bytes of `s` at the
successive slots after the old head and leaves every other slot
unchanged (`s` at most the full ring capacity). -/
theorem rxPushList_buf :
    ∀ (s : List Nat) (st : RxRing), st.head < 16 → s.length ≤ 16 →
      (∀ i, (hi : i < s.length) →
        (rxPushList st s).buf ((st.head + i + 1) % 16) = s.get ⟨i, hi⟩ % 256) ∧
      (∀ j, (∀ k, k < s.length → (st.head + k + 1) % 16 ≠ j) →
        (rxPushList st s).buf j = st.buf j) := by
  intro s
  induction s with
  | nil =>
    intro st hh hlen
    exact ⟨fun i hi => absurd hi (by simp), fun j _ => rfl⟩
  | cons b t ih =>
    intro st hh hlen
    have hlt : t.length < 16 := by
      simp only [List.length_cons] at hlen
      omega
    obtain ⟨hget, hpres⟩ :=
      ih (rxPush st b) (by show (st.head + 1) % 16 < 16; omega) (by omega)
    constructor
    · intro i hi
      show (rxPushList (rxPush st b) t).buf ((st.head + i + 1) % 16) = _
      match i with
      | 0 =>
        have hkeep := hpres ((st.head + 1) % 16) (by
          intro k hk
          show ((st.head + 1) % 16 + k + 1) % 16 ≠ (st.head + 1) % 16
          omega)
        rw [show (st.head + 0 + 1) % 16 = (st.head + 1) % 16 from by omega, hkeep]
        show upd st.buf ((st.head + 1) % 16) (b % 256) ((st.head + 1) % 16) = _
        simp [upd]
      | Nat.succ i' =>
        have hidx : (st.head + (i' + 1) + 1) % 16 =
            (((rxPush st b).head) + i' + 1) % 16 := by
          show _ = ((st.head + 1) % 16 + i' + 1) % 16
          omega
        rw [hidx]
        have hi' : i' < t.length := by
          simp only [List.length_cons] at hi
          omega
        rw [hget i' hi']
        rfl
    · intro j hj
      show (rxPushList (rxPush st b) t).buf j = _
      have h1 : (rxPushList (rxPush st b) t).buf j = (rxPush st b).buf j := by
        refine hpres j ?_
        intro k hk
        have := hj (k + 1) (by simp only [List.length_cons]; omega)
        show ((st.head + 1) % 16 + k + 1) % 16 ≠ j
        omega
      rw [h1]
      have hne : ¬ (j = (st.head + 1) % 16) := by
        have := hj 0 (by simp)
        omega
      show upd st.buf ((st.head + 1) % 16) (b % 256) j = st.buf j
      simp [upd, hne]

/-- Dequeuing `n` bytes from the RX ring when at least `n` unread bytes
are counted reads the successive slots after `rx_tail`. -/
theorem rxPopN_ok :
    ∀ (n : Nat) (st : RxRing), st.tail < 16 → n ≤ st.count →
      (rxPopN st n).1 = (List.range n).map (fun i => st.buf ((st.tail + i + 1) % 16)) := by
  intro n
  induction n with
  | zero => intro st ht hc; simp [rxPopN]
  | succ m ih =>
    intro st ht hc
    have hc0 : ¬ (st.count = 0) := by omega
    have hpop : rxPop st =
        (st.buf ((st.tail + 1) % 16),
         ⟨st.buf, st.head, (st.tail + 1) % 16, st.count - 1⟩) := by
      simp [rxPop, RING_SIZE, hc0]
    have hrec := ih ⟨st.buf, st.head, (st.tail + 1) % 16, st.count - 1⟩
      (Nat.mod_lt _ (by omega)) (by show m ≤ st.count - 1; omega)
    simp only [rxPopN, hpop, hrec]
    rw [List.range_succ_eq_map]
    simp only [List.map_cons, List.map_map, List.cons.injEq]
    constructor
    · norm_num
    · refine List.map_congr_left ?_
      intro a ha
      simp only [Function.comp_apply]
      congr 1
      omega

/-! ### Flash-operation cleanliness of the handlers -/

/-- `Reply_WRITPAGE` emits only `boot_page_fill` calls. -/
theorem Reply_WRITPAGE_ops_clean (cfg : Cfg) (cmd : Nat → Nat) (mp : MemPack) :
    ∀ op ∈ (Reply_WRITPAGE cfg cmd mp).ops, isSlowOp op = false := by
  intro op hop
  have hop2 : op ∈ (writPageFill cfg cmd mp).2.2 := hop
  revert hop2
  simp only [writPageFill]
  split
  · intro hop2
    refine fillLoop_fills _ _ _ _ _ _ _ ?_ op hop2
    intro x hx
    rcases List.mem_singleton.mp hx with rfl
    rfl
  · intro hop2
    refine fillLoop_fills _ _ _ _ _ _ _ ?_ op hop2
    intro x hx
    exact absurd hx (by simp)

/-- The dispatcher and every command handler it calls emit only
`boot_page_fill` calls (the WRITPAGE fills); no handler erases or
writes a page. -/
theorem ReceiveEvent_ops_clean (cfg : Cfg) (env : Env) (cmd : Nat → Nat) (mp : MemPack) :
    ∀ op ∈ (ReceiveEvent cfg env cmd mp).2.1, isSlowOp op = false := by
  intro op hop
  simp only [ReceiveEvent] at hop
  split at hop
  · simp [Reply_GETTMNLV] at hop
  · split at hop
    · simp [Reply_EXITTMNL] at hop
    · split at hop
      · simp [Reply_DELFLASH] at hop
      · split at hop
        · simp [Reply_STPGADDR] at hop
        · split at hop
          · exact Reply_WRITPAGE_ops_clean cfg cmd mp op hop
          · split at hop
            · simp [Reply_READFLSH] at hop
            · split at hop
              · simp [Reply_INITSOFT] at hop
              · simp at hop

/-- The `STATE_SEND_DATA_BYTE` case touches no flash. -/
theorem sendDataCase_ops (e : Engine) : (sendDataCase e).ops = [] := by
  unfold sendDataCase
  split <;> rfl

/-- `UsiOverflowHandler` — including the dispatcher and command handlers
it invokes — never calls `boot_page_erase` or `boot_page_write`. -/
theorem UsiOverflowHandler_ops_clean (cfg : Cfg) (env : Env) (e : Engine) :
    ∀ op ∈ (UsiOverflowHandler cfg env e).ops, isSlowOp op = false := by
  intro op hop
  rcases e with ⟨st, rx, tx, mp⟩
  cases st <;> simp only [UsiOverflowHandler] at hop
  case checkReceivedAddress =>
    split at hop
    · split at hop
      · revert hop
        split <;> intro hop <;> simp only [] at hop <;>
          exact ReceiveEvent_ops_clean cfg env _ _ op hop
      · simp at hop
    · simp at hop
  case checkReceivedAck =>
    split at hop
    · simp at hop
    · rw [sendDataCase_ops] at hop
      simp at hop
  case sendDataByte =>
    rw [sendDataCase_ops] at hop
    simp at hop
  case receiveAckAfterSendingData => simp at hop
  case receiveDataByte => simp at hop
  case putByteInRxBufferAndSendAck => simp at hop

/-! ### Slow-operation gating in the main loop -/

/-- `afterPoll` reports the handler result it was given. -/
theorem afterPoll_handlerRes (cfg : Cfg) (env : Env) (ls : LoopState)
    (hres : Option Bool) (hops : List FlashOp) :
    (afterPoll cfg env ls hres hops).handlerRes = hres := by
  simp only [afterPoll]
  repeat' split
  all_goals rfl

/-- Only the draining of `slow_ops_enabled` changes it inside
`afterPoll`, and draining sets it to false. -/
theorem afterPoll_slow (cfg : Cfg) (env : Env) (ls : LoopState)
    (hres : Option Bool) (hops : List FlashOp) :
    (afterPoll cfg env ls hres hops).ls.slow = true → ls.slow = true := by
  simp only [afterPoll]
  repeat' split
  all_goals intro h
  all_goals first
    | exact h
    | exact absurd h (by simp)

/-- If an `afterPoll` tail performs an erase or write beyond the handler
operations it was handed, then `slow_ops_enabled` was set on entry, the
iteration drained it, and it is clear on exit. -/
theorem afterPoll_dirty (cfg : Cfg) (env : Env) (ls : LoopState)
    (hres : Option Bool) (hops : List FlashOp)
    (hclean : ∀ op ∈ hops, isSlowOp op = false) :
    ∀ op ∈ (afterPoll cfg env ls hres hops).ops, isSlowOp op = true →
      ls.slow = true ∧ (afterPoll cfg env ls hres hops).consumed = true ∧
        (afterPoll cfg env ls hres hops).ls.slow = false := by
  intro op hop htrue
  simp only [afterPoll] at hop ⊢
  split at hop
  · rename_i hinit
    split at hop
    · rename_i hslow
      rw [if_pos hinit, if_pos hslow]
      exact ⟨hslow, rfl, rfl⟩
    · exact absurd htrue (by simp [hclean op hop])
  · exact absurd htrue (by simp [hclean op hop])

/-- A main-loop iteration that erases or writes flash does so in the
slow-op section: either the overflow handler ran this iteration and
returned `true`, or `slow_ops_enabled` was already set on entry; in both
cases the flag is drained and clear on exit. -/
theorem mainLoopStep_dirty (cfg : Cfg) (env : Env) (ls : LoopState) :
    ∀ op ∈ (mainLoopStep cfg env ls).ops, isSlowOp op = true →
      ((mainLoopStep cfg env ls).handlerRes = some true ∨ ls.slow = true) ∧
      (mainLoopStep cfg env ls).consumed = true ∧
      (mainLoopStep cfg env ls).ls.slow = false := by
  intro op hop htrue
  simp only [mainLoopStep] at hop ⊢
  set e1 := if env.startFlag = true then TwiStartHandler ls.eng else ls.eng with he1
  set ovf1 := if env.startFlag = true then !env.stopSeen else ls.ovfInt with hovf1
  by_cases hovf : (env.ovfFlag && ovf1) = true
  · rw [if_pos hovf] at hop ⊢
    by_cases hstuck : (UsiOverflowHandler cfg env e1).stuck = true
    · rw [if_pos hstuck] at hop
      exact absurd htrue (by simp [UsiOverflowHandler_ops_clean cfg env e1 op hop])
    · rw [if_neg hstuck] at hop ⊢
      obtain ⟨hslow, hcons, hexit⟩ :=
        afterPoll_dirty cfg env _ _ _ (UsiOverflowHandler_ops_clean cfg env _) op hop htrue
      refine ⟨Or.inl ?_, hcons, hexit⟩
      rw [afterPoll_handlerRes]
      exact congrArg some hslow
  · rw [if_neg hovf] at hop ⊢
    obtain ⟨hslow, hcons, hexit⟩ :=
      afterPoll_dirty cfg env _ _ _ (by intro x hx; exact absurd hx (by simp)) op hop htrue
    exact ⟨Or.inr hslow, hcons, hexit⟩

/-- `slow_ops_enabled` set after an iteration means the overflow handler
returned `true` this iteration, or it was already set on entry. -/
theorem mainLoopStep_slow (cfg : Cfg) (env : Env) (ls : LoopState) :
    (mainLoopStep cfg env ls).ls.slow = true →
      ((mainLoopStep cfg env ls).handlerRes = some true ∨ ls.slow = true) := by
  simp only [mainLoopStep]
  set e1 := if env.startFlag = true then TwiStartHandler ls.eng else ls.eng with he1
  set ovf1 := if env.startFlag = true then !env.stopSeen else ls.ovfInt with hovf1
  by_cases hovf : (env.ovfFlag && ovf1) = true
  · rw [if_pos hovf]
    by_cases hstuck : (UsiOverflowHandler cfg env e1).stuck = true
    · rw [if_pos hstuck]
      intro h
      exact Or.inr h
    · rw [if_neg hstuck]
      intro h
      have hslow := afterPoll_slow cfg env _ _ _ h
      refine Or.inl ?_
      rw [afterPoll_handlerRes]
      exact congrArg some hslow
  · rw [if_neg hovf]
    intro h
    have hs := afterPoll_slow cfg env
      { eng := e1, slow := ls.slow, ovfInt := ovf1, led_delay := ls.led_delay,
        exit_delay := ls.exit_delay } none [] h
    exact Or.inr hs

/-- Along any run of the main loop, an iteration that erases or writes
flash is preceded (weakly) by an iteration whose overflow-handler
invocation returned `true` — unless `slow_ops_enabled` was already set
when the run began. -/
theorem runTrace_dirty (cfg : Cfg) :
    ∀ (envs : List Env) (ls : LoopState) (i : Nat),
      i < (runTrace cfg envs ls).length →
      (∃ op ∈ ((runTrace cfg envs ls).getD i dummyIter).ops, isSlowOp op = true) →
      (∃ j, j ≤ i ∧ j < (runTrace cfg envs ls).length ∧
        ((runTrace cfg envs ls).getD j dummyIter).handlerRes = some true) ∨
        ls.slow = true := by
  intro envs
  induction envs with
  | nil =>
    intro ls i h
    exact absurd h (by simp [runTrace])
  | cons e rest ih =>
    intro ls i h hdirty
    have hrt : runTrace cfg (e :: rest) ls = mainLoopStep cfg e ls ::
        (if (mainLoopStep cfg e ls).halt = none
         then runTrace cfg rest (mainLoopStep cfg e ls).ls else []) := rfl
    match i with
    | 0 =>
      obtain ⟨op, hop, htrue⟩ := hdirty
      rw [hrt, List.getD_cons_zero] at hop
      rcases (mainLoopStep_dirty cfg e ls op hop htrue).1 with hres | hslow
      · refine Or.inl ⟨0, Nat.le_refl 0, h, ?_⟩
        rw [hrt, List.getD_cons_zero]
        exact hres
      · exact Or.inr hslow
    | Nat.succ i' =>
      by_cases hh : (mainLoopStep cfg e ls).halt = none
      · have htl : runTrace cfg (e :: rest) ls =
            mainLoopStep cfg e ls :: runTrace cfg rest (mainLoopStep cfg e ls).ls := by
          rw [hrt, if_pos hh]
        have h' : i' < (runTrace cfg rest (mainLoopStep cfg e ls).ls).length := by
          rw [htl] at h
          simpa using h
        rw [htl, List.getD_cons_succ] at hdirty
        rcases ih (mainLoopStep cfg e ls).ls i' h' hdirty with ⟨j, hle, hjlt, hres⟩ | hslow
        · refine Or.inl ⟨j + 1, Nat.succ_le_succ hle, ?_, ?_⟩
          · rw [htl]
            simpa using Nat.succ_lt_succ hjlt
          · rw [htl, List.getD_cons_succ]
            exact hres
        · rcases mainLoopStep_slow cfg e ls hslow with hres | hstart
          · refine Or.inl ⟨0, Nat.zero_le _, ?_, ?_⟩
            · rw [htl]
              simp
            · rw [hrt, List.getD_cons_zero]
              exact hres
          · exact Or.inr hstart
      · exfalso
        rw [hrt, if_neg hh] at h
        simp at h

/-- TX round trip for at most 15 bytes. -/
theorem txRoundtrip_ok (s : List Nat) (hb : ∀ b ∈ s, b < 256) (hlen : s.length ≤ 15) :
    txRoundtrip s = some s := by
  unfold txRoundtrip
  obtain ⟨st1, heq, hhead, htail, hget, hpres⟩ :=
    txPushList_ok s { buf := fun _ => 0, head := 0, tail := 0 }
      (by norm_num) (by norm_num) hlen
      (by intro k hk; show (0 + k + 1) % 16 ≠ 0; omega)
  rw [heq]
  show txPopN st1 s.length = some s
  have hpop := txPopN_ok s.length st1 (by rw [htail]; decide) (by
    intro i hi
    rw [htail, hhead]
    show (0 + i) % 16 ≠ (0 + s.length) % 16
    omega)
  rw [hpop]
  congr 1
  refine List.ext_get (by simp) ?_
  intro n h1 h2
  have hn : n < s.length := by simpa using h2
  simp only [List.get_eq_getElem, List.getElem_map, List.getElem_range]
  have hidx : (st1.tail + n + 1) % 16 = (0 + n + 1) % 16 := by rw [htail]
  rw [hidx]
  have := hget n hn
  simp only [List.get_eq_getElem] at this
  rw [this, Nat.mod_eq_of_lt (hb _ (List.getElem_mem hn))]

/-- RX round trip for at most 16 bytes. -/
theorem rxRoundtrip_ok (s : List Nat) (hb : ∀ b ∈ s, b < 256) (hlen : s.length ≤ 16) :
    rxRoundtrip s = s := by
  unfold rxRoundtrip
  have hhead := rxPushList_head s { buf := fun _ => 0, head := 0, tail := 0, count := 0 }
    (by norm_num)
  have htail := rxPushList_tail s { buf := fun _ => 0, head := 0, tail := 0, count := 0 }
  have hcount := rxPushList_count s { buf := fun _ => 0, head := 0, tail := 0, count := 0 }
    (by norm_num)
  obtain ⟨hget, hpres⟩ :=
    rxPushList_buf s { buf := fun _ => 0, head := 0, tail := 0, count := 0 }
      (by norm_num) hlen
  have hpop := rxPopN_ok s.length
    (rxPushList { buf := fun _ => 0, head := 0, tail := 0, count := 0 } s)
    (by rw [htail]; decide)
    (by rw [hcount]; show s.length ≤ (0 + s.length) % 256; omega)
  rw [hpop]
  refine List.ext_get (by simp) ?_
  intro n h1 h2
  have hn : n < s.length := by simpa using h2
  simp only [List.get_eq_getElem, List.getElem_map, List.getElem_range]
  have hidx : ((rxPushList { buf := fun _ => 0, head := 0, tail := 0, count := 0 } s).tail
      + n + 1) % 16 = (0 + n + 1) % 16 := by rw [htail]
  rw [hidx]
  have := hget n hn
  simp only [List.get_eq_getElem] at this
  rw [this, Nat.mod_eq_of_lt (hb _ (List.getElem_mem hn))]

/-! ### `Reply_WRITPAGE` projections -/

/-- The emitted fill trace of `Reply_WRITPAGE` is that of its fill stage. -/
theorem Reply_WRITPAGE_ops_eq (cfg : Cfg) (cmd : Nat → Nat) (mp : MemPack) :
    (Reply_WRITPAGE cfg cmd mp).ops = (writPageFill cfg cmd mp).2.2 := rfl

/-- The first reply byte of `Reply_WRITPAGE` is always `ACKWTPAG`. -/
theorem Reply_WRITPAGE_reply0_eq (cfg : Cfg) (cmd : Nat → Nat) (mp : MemPack) :
    (Reply_WRITPAGE cfg cmd mp).reply0 = ACKWTPAG := rfl

/-- The checksum verdict does not alter `page_ix`. -/
theorem Reply_WRITPAGE_page_ix (cfg : Cfg) (cmd : Nat → Nat) (mp : MemPack) :
    (Reply_WRITPAGE cfg cmd mp).mp.page_ix = (writPageFill cfg cmd mp).1.page_ix := by
  simp only [Reply_WRITPAGE]
  split <;> rfl

/-- The checksum verdict does not alter the saved reset-vector LSB. -/
theorem Reply_WRITPAGE_lsb (cfg : Cfg) (cmd : Nat → Nat) (mp : MemPack) :
    (Reply_WRITPAGE cfg cmd mp).mp.app_reset_lsb = (writPageFill cfg cmd mp).1.app_reset_lsb := by
  simp only [Reply_WRITPAGE]
  split <;> rfl

/-- The checksum verdict does not alter the saved reset-vector MSB. -/
theorem Reply_WRITPAGE_msb (cfg : Cfg) (cmd : Nat → Nat) (mp : MemPack) :
    (Reply_WRITPAGE cfg cmd mp).mp.app_reset_msb = (writPageFill cfg cmd mp).1.app_reset_msb := by
  simp only [Reply_WRITPAGE]
  split <;> rfl

/-! ### Claim theorems -/

/-- C5 counterexample: the trampoline formula, instantiated exactly as
the claim instantiates it (`TIMONEL_START = 0x1A00`, `app_vec = 0x0000`,
16-bit unsigned arithmetic), does not yield `0xC0FF`. -/
theorem trampoline_1A00_not_C0FF : trampoline 0x1A00 0 0 ≠ 0xC0FF := by decide

/-- C5 (amended): with `TIMONEL_START = 0x1A00` and `app_vec = 0x0000`,
the code's trampoline arithmetic yields `0xC301` (binary
`1100 0011 0000 0001`): `0x1A00 >> 1 = 0x0D00`, minus
`(0 + 1) & 0x0FFF = 1` gives `0x0CFF`; two's complement is `0xF301`,
masked to `0x301`, or-ed with `0xC000`. -/
theorem trampoline_1A00_value : trampoline 0x1A00 0 0 = 0xC301 := by decide

/-- C4: with `TIMONEL_START = k·P` a positive multiple of the page size
(and a 16-bit flash address space), the DELFLASH slow-op erase loop of
`main` issues `boot_page_erase` exactly once for each page base address
below `TIMONEL_START` — the set `{0, P, …, (k-1)·P}` — and never for any
address at or above `TIMONEL_START`. -/
theorem delflash_erase_range (P k : Nat) (hP : 0 < P) (hk : 0 < k)
    (hlt : k * P < 65536) :
    ∃ l, delFlashLoop P 65536 (k * P) = some l ∧
      (∀ a, a ∈ l ↔ (a < k * P ∧ P ∣ a)) ∧ l.Nodup := by
  have hk65536 : k ≤ 65536 := by
    have : k ≤ k * P := Nat.le_mul_of_pos_right k hP
    omega
  refine ⟨erasePages P k, ?_, ?_, erasePages_nodup P hP k⟩
  · have h := delFlashLoop_run P hP k (65536 - k) hlt
    rw [show k + (65536 - k) = 65536 from by omega] at h
    exact h
  · intro a
    rw [erasePages_mem]
    constructor
    · rintro ⟨i, hi, rfl⟩
      refine ⟨?_, Dvd.intro_left i rfl⟩
      have := Nat.mul_lt_mul_of_lt_of_le hi (Nat.le_refl P) hP
      exact this
    · rintro ⟨hlt2, c, rfl⟩
      refine ⟨c, ?_, by ring⟩
      rw [Nat.mul_comm k P] at hlt2
      exact Nat.lt_of_mul_lt_mul_left hlt2

/-- C4 witness at `P = 64`, `k = 4`. -/
theorem delflash_erase_range_witness :
    (0 : Nat) < 64 ∧ (0 : Nat) < 4 ∧
      ∃ l, delFlashLoop 64 65536 (4 * 64) = some l ∧
        (∀ a, a ∈ l ↔ (a < 4 * 64 ∧ 64 ∣ a)) ∧ l.Nodup :=
  ⟨by decide, by decide, delflash_erase_range 64 4 (by decide) (by decide) (by decide)⟩

/-- C10: with `TIMONEL_START = k·P` a positive multiple of the page
size, the DELFLASH erase loop terminates after exactly `k =
TIMONEL_START / SPM_PAGESIZE` iterations: an iteration budget below `k`
is exhausted before the loop condition turns false, the budget `k`
completes the loop, and the loop then performed `k` erasures. -/
theorem delflash_loop_terminates (P k : Nat) (hP : 0 < P) (hk : 0 < k)
    (hlt : k * P < 65536) :
    (∀ j, j < k → delFlashLoop P j (k * P) = none) ∧
    ∃ l, delFlashLoop P k (k * P) = some l ∧ l.length = k := by
  refine ⟨fun j hj => delFlashLoop_short P hP j k hlt hj,
    erasePages P k, ?_, erasePages_length P k⟩
  simpa using delFlashLoop_run P hP k 0 hlt

/-- C10 witness at `P = 64`, `k = 4`. -/
theorem delflash_loop_terminates_witness :
    (0 : Nat) < 64 ∧ (0 : Nat) < 4 ∧
      ((∀ j, j < 4 → delFlashLoop 64 j (4 * 64) = none) ∧
        ∃ l, delFlashLoop 64 4 (4 * 64) = some l ∧ l.length = 4) :=
  ⟨by decide, by decide, delflash_loop_terminates 64 4 (by decide) (by decide) (by decide)⟩

/-- C1: when a WRITPAGE command is processed with the fill position at
the reset page (`page_addr + page_ix == 0`, `RESET_PAGE = 0`) and
`AUTO_PAGE_ADDR` enabled, the handler saves `command[1]` and
`command[2]` into `app_reset_lsb` / `app_reset_msb` and its first
`boot_page_fill` targets flash word 0 with the jump word
`0xC000 | (TIMONEL_START/2 - 1)` instead of the master-supplied bytes
(the bound on `TIMONEL_START` reflects the 16-bit flash space, where the
code's `+` coincides with the claim's `|`). -/
theorem writpage_reset_vector_substitution (cfg : Cfg) (cmd : Nat → Nat) (mp : MemPack)
    (hauto : cfg.auto_page_addr = true)
    (hreset : (mp.page_addr + mp.page_ix) % 65536 = RESET_PAGE)
    (hts : cfg.timonel_start ≤ 32768) :
    (Reply_WRITPAGE cfg cmd mp).mp.app_reset_lsb = cmd 1 % 256 ∧
    (Reply_WRITPAGE cfg cmd mp).mp.app_reset_msb = cmd 2 % 256 ∧
    (Reply_WRITPAGE cfg cmd mp).ops.head? =
      some (FlashOp.fill RESET_PAGE (0xC000 ||| (cfg.timonel_start / 2 - 1))) := by
  obtain ⟨hl, hm, hh⟩ := writPageFill_reset cfg cmd mp hauto hreset
  refine ⟨by rw [Reply_WRITPAGE_lsb, hl], by rw [Reply_WRITPAGE_msb, hm], ?_⟩
  rw [Reply_WRITPAGE_ops_eq, hh]
  have hx : cfg.timonel_start / 2 - 1 < 16384 := by omega
  rw [Nat.mod_eq_of_lt (by omega), c000_add_eq_or hx]

/-- C1 witness at the default configuration, `command[i] = i`, zeroed
`MemPack`. -/
theorem writpage_reset_vector_substitution_witness :
    defaultCfg.auto_page_addr = true ∧
    (zeroMp.page_addr + zeroMp.page_ix) % 65536 = RESET_PAGE ∧
    defaultCfg.timonel_start ≤ 32768 ∧
    ((Reply_WRITPAGE defaultCfg (fun i => i) zeroMp).mp.app_reset_lsb = (fun i => i) 1 % 256 ∧
     (Reply_WRITPAGE defaultCfg (fun i => i) zeroMp).mp.app_reset_msb = (fun i => i) 2 % 256 ∧
     (Reply_WRITPAGE defaultCfg (fun i => i) zeroMp).ops.head? =
       some (FlashOp.fill RESET_PAGE (0xC000 ||| (defaultCfg.timonel_start / 2 - 1)))) :=
  ⟨by decide, by decide, by decide,
   writpage_reset_vector_substitution defaultCfg (fun i => i) zeroMp
     (by decide) (by decide) (by decide)⟩

/-- C2: for every WRITPAGE command with an even positive packet size, if
the trailing byte equals the 8-bit sum of the payload bytes (and, under
`CHECK_PAGE_IX`, the resulting `page_ix` does not exceed
`SPM_PAGESIZE`), the reply is `(ACKWTPAG, checksum)` and the flags —
`FL_DEL_FLASH` included — are untouched; for any other trailing byte the
reply's checksum byte is 0 and `FL_DEL_FLASH` is set. -/
theorem writpage_checksum_reply (cfg : Cfg) (cmd : Nat → Nat) (mp : MemPack)
    (h2 : 2 ∣ cfg.mst_packet_size) (h0 : 0 < cfg.mst_packet_size)
    (hpix : mp.page_ix < 256) :
    ((cmd (cfg.mst_packet_size + 1) % 256 = sumBytes cmd 1 cfg.mst_packet_size % 256 ∧
      (cfg.check_page_ix = true →
        (Reply_WRITPAGE cfg cmd mp).mp.page_ix ≤ cfg.spm_pagesize)) →
      (Reply_WRITPAGE cfg cmd mp).reply0 = ACKWTPAG ∧
      (Reply_WRITPAGE cfg cmd mp).reply1 = sumBytes cmd 1 cfg.mst_packet_size % 256 ∧
      (Reply_WRITPAGE cfg cmd mp).mp.flags = mp.flags) ∧
    (cmd (cfg.mst_packet_size + 1) % 256 ≠ sumBytes cmd 1 cfg.mst_packet_size % 256 →
      (Reply_WRITPAGE cfg cmd mp).reply1 = 0 ∧
      Nat.testBit (Reply_WRITPAGE cfg cmd mp).mp.flags FL_DEL_FLASH = true) := by
  obtain ⟨hck, hpix2, hpa, hfl, hlen⟩ := writPageFill_spec cfg cmd mp h2 h0 hpix
  constructor
  · rintro ⟨hmatch, hbound⟩
    have hbad : ¬ ((writPageFill cfg cmd mp).2.1 ≠ cmd (cfg.mst_packet_size + 1) % 256 ∨
        (cfg.check_page_ix = true ∧
          cfg.spm_pagesize < (writPageFill cfg cmd mp).1.page_ix)) := by
      rw [not_or]
      refine ⟨?_, ?_⟩
      · rw [hck]
        omega
      · rintro ⟨hchk, hover⟩
        have hb := hbound hchk
        rw [Reply_WRITPAGE_page_ix] at hb
        omega
    refine ⟨rfl, ?_, ?_⟩
    · show (Reply_WRITPAGE cfg cmd mp).reply1 = _
      simp only [Reply_WRITPAGE]
      rw [if_neg hbad, hck]
    · show (Reply_WRITPAGE cfg cmd mp).mp.flags = _
      simp only [Reply_WRITPAGE]
      rw [if_neg hbad, hfl]
  · intro hmismatch
    have hbad : (writPageFill cfg cmd mp).2.1 ≠ cmd (cfg.mst_packet_size + 1) % 256 ∨
        (cfg.check_page_ix = true ∧
          cfg.spm_pagesize < (writPageFill cfg cmd mp).1.page_ix) := by
      refine Or.inl ?_
      rw [hck]
      intro h
      exact hmismatch h.symm
    have hbit : Nat.testBit (1 <<< FL_DEL_FLASH) FL_DEL_FLASH = true := by decide
    refine ⟨?_, ?_⟩
    · show (Reply_WRITPAGE cfg cmd mp).reply1 = 0
      simp only [Reply_WRITPAGE]
      rw [if_pos hbad]
    · show Nat.testBit (Reply_WRITPAGE cfg cmd mp).mp.flags FL_DEL_FLASH = true
      simp only [Reply_WRITPAGE]
      rw [if_pos hbad]
      simp [Nat.testBit_or, hbit]

/-- C2 witness at the default configuration, `command[i] = i` with a
correct trailing checksum delivered through the first conjunct, and a
wrong trailing byte through the second. -/
theorem writpage_checksum_reply_witness :
    (2 ∣ defaultCfg.mst_packet_size) ∧ 0 < defaultCfg.mst_packet_size ∧
    zeroMp.page_ix < 256 ∧
    (((fun i => if i = 9 then 36 else i) (defaultCfg.mst_packet_size + 1) % 256 =
        sumBytes (fun i => if i = 9 then 36 else i) 1 defaultCfg.mst_packet_size % 256 ∧
      (defaultCfg.check_page_ix = true →
        (Reply_WRITPAGE defaultCfg (fun i => if i = 9 then 36 else i) zeroMp).mp.page_ix ≤
          defaultCfg.spm_pagesize)) →
      (Reply_WRITPAGE defaultCfg (fun i => if i = 9 then 36 else i) zeroMp).reply0 = ACKWTPAG ∧
      (Reply_WRITPAGE defaultCfg (fun i => if i = 9 then 36 else i) zeroMp).reply1 =
        sumBytes (fun i => if i = 9 then 36 else i) 1 defaultCfg.mst_packet_size % 256 ∧
      (Reply_WRITPAGE defaultCfg (fun i => if i = 9 then 36 else i) zeroMp).mp.flags =
        zeroMp.flags) :=
  ⟨by decide, by decide, by decide,
   (writpage_checksum_reply defaultCfg (fun i => if i = 9 then 36 else i) zeroMp
     (by decide) (by decide) (by decide)).1⟩

/-- C9: every `Reply_WRITPAGE` call advances `page_ix` by exactly
`MST_PACKET_SIZE` (as a `uint8_t`; exactly, when no wrap occurs) and
performs `MST_PACKET_SIZE / 2` `boot_page_fill` calls, whether or not
the trailing checksum matches; a mismatch additionally sets
`FL_DEL_FLASH` and zeroes the reply checksum byte but rolls nothing
back. -/
theorem writpage_page_ix_advance (cfg : Cfg) (cmd : Nat → Nat) (mp : MemPack)
    (h2 : 2 ∣ cfg.mst_packet_size) (h0 : 0 < cfg.mst_packet_size)
    (hpix : mp.page_ix < 256) :
    (Reply_WRITPAGE cfg cmd mp).mp.page_ix =
      (mp.page_ix + cfg.mst_packet_size) % 256 ∧
    (Reply_WRITPAGE cfg cmd mp).ops.length = cfg.mst_packet_size / 2 ∧
    (mp.page_ix + cfg.mst_packet_size < 256 →
      (Reply_WRITPAGE cfg cmd mp).mp.page_ix = mp.page_ix + cfg.mst_packet_size) ∧
    (cmd (cfg.mst_packet_size + 1) % 256 ≠ sumBytes cmd 1 cfg.mst_packet_size % 256 →
      (Reply_WRITPAGE cfg cmd mp).reply1 = 0 ∧
      Nat.testBit (Reply_WRITPAGE cfg cmd mp).mp.flags FL_DEL_FLASH = true) := by
  obtain ⟨hck, hpix2, hpa, hfl, hlen⟩ := writPageFill_spec cfg cmd mp h2 h0 hpix
  refine ⟨?_, ?_, ?_, ?_⟩
  · rw [Reply_WRITPAGE_page_ix, hpix2]
  · rw [Reply_WRITPAGE_ops_eq, hlen]
  · intro hnowrap
    rw [Reply_WRITPAGE_page_ix, hpix2]
    omega
  · intro hmismatch
    have hbad : (writPageFill cfg cmd mp).2.1 ≠ cmd (cfg.mst_packet_size + 1) % 256 ∨
        (cfg.check_page_ix = true ∧
          cfg.spm_pagesize < (writPageFill cfg cmd mp).1.page_ix) := by
      refine Or.inl ?_
      rw [hck]
      intro h
      exact hmismatch h.symm
    have hbit : Nat.testBit (1 <<< FL_DEL_FLASH) FL_DEL_FLASH = true := by decide
    refine ⟨?_, ?_⟩
    · show (Reply_WRITPAGE cfg cmd mp).reply1 = 0
      simp only [Reply_WRITPAGE]
      rw [if_pos hbad]
    · show Nat.testBit (Reply_WRITPAGE cfg cmd mp).mp.flags FL_DEL_FLASH = true
      simp only [Reply_WRITPAGE]
      rw [if_pos hbad]
      simp [Nat.testBit_or, hbit]

/-- C9 witness at the default configuration, `command[i] = i` (whose
trailing byte 9 differs from the payload checksum 36). -/
theorem writpage_page_ix_advance_witness :
    (2 ∣ defaultCfg.mst_packet_size) ∧ 0 < defaultCfg.mst_packet_size ∧
    zeroMp.page_ix < 256 ∧
    ((Reply_WRITPAGE defaultCfg (fun i => i) zeroMp).mp.page_ix =
      (zeroMp.page_ix + defaultCfg.mst_packet_size) % 256 ∧
     (Reply_WRITPAGE defaultCfg (fun i => i) zeroMp).ops.length =
      defaultCfg.mst_packet_size / 2 ∧
     (zeroMp.page_ix + defaultCfg.mst_packet_size < 256 →
       (Reply_WRITPAGE defaultCfg (fun i => i) zeroMp).mp.page_ix =
         zeroMp.page_ix + defaultCfg.mst_packet_size) ∧
     ((fun i => i) (defaultCfg.mst_packet_size + 1) % 256 ≠
        sumBytes (fun i => i) 1 defaultCfg.mst_packet_size % 256 →
       (Reply_WRITPAGE defaultCfg (fun i => i) zeroMp).reply1 = 0 ∧
       Nat.testBit (Reply_WRITPAGE defaultCfg (fun i => i) zeroMp).mp.flags
         FL_DEL_FLASH = true)) :=
  ⟨by decide, by decide, by decide,
   writpage_page_ix_advance defaultCfg (fun i => i) zeroMp
     (by decide) (by decide) (by decide)⟩

/-- C8: for every address byte that is neither the device's 7-bit
address nor the general call, `UsiOverflowHandler` in
`CHECK_RECEIVED_ADDRESS` re-arms START detection without sending ACK,
returns `false`, and leaves the rings, their indices and every `MemPack`
field unchanged (the whole driver state is returned untouched). -/
theorem address_mismatch_no_effect (cfg : Cfg) (env : Env) (e : Engine)
    (hstate : e.state = DeviceState.checkReceivedAddress)
    (hbyte : env.usidr < 256) (hnz : env.usidr ≠ 0)
    (hmism : env.usidr >>> 1 ≠ cfg.twi_addr) :
    UsiOverflowHandler cfg env e =
      { eng := e, slow := false, actions := [UsiAction.waitForTwiAddress],
        ops := [], stuck := false } := by
  rcases e with ⟨st, rx, tx, mp⟩
  simp only [] at hstate
  subst hstate
  simp only [UsiOverflowHandler]
  rw [Nat.mod_eq_of_lt hbyte]
  rw [if_neg (by rw [not_or]; exact ⟨hnz, hmism⟩)]

/-- C8 witness: address byte `0x50` (7-bit address 40) at device address
11, with empty rings and zeroed `MemPack`. -/
theorem address_mismatch_no_effect_witness :
    engAddr.state = DeviceState.checkReceivedAddress ∧
    envAddr.usidr < 256 ∧ envAddr.usidr ≠ 0 ∧
    envAddr.usidr >>> 1 ≠ defaultCfg.twi_addr ∧
    UsiOverflowHandler defaultCfg envAddr engAddr =
      { eng := engAddr, slow := false, actions := [UsiAction.waitForTwiAddress],
        ops := [], stuck := false } :=
  ⟨by decide, by decide, by decide, by decide,
   address_mismatch_no_effect defaultCfg envAddr engAddr
     (by decide) (by decide) (by decide) (by decide)⟩

/-- C7 counterexample: with the RX ring holding its full capacity of 16
unread bytes (all `1`), a data byte `0xAA` arriving in
`STATE_PUT_BYTE_IN_RX_BUFFER_AND_SEND_ACK` is **not** dropped: it is
stored into slot 1, changing the bytes already stored in the ring
(the engine does still send ACK). -/
theorem rx_overrun_cex :
    engFullRx.rx.count = 16 ∧
    engFullRx.rx.buf 1 = 1 ∧
    (UsiOverflowHandler defaultCfg envByte engFullRx).eng.rx.buf 1 = 0xAA ∧
    (UsiOverflowHandler defaultCfg envByte engFullRx).eng.rx.buf 1 ≠ engFullRx.rx.buf 1 ∧
    (UsiOverflowHandler defaultCfg envByte engFullRx).actions = [UsiAction.sendAck] := by
  decide

/-- C7 (amended): when a data byte arrives in
`STATE_PUT_BYTE_IN_RX_BUFFER_AND_SEND_ACK` while the RX ring already
holds its full capacity of 16 unread bytes (`head = tail`), the incoming
byte is stored anyway at the slot after `rx_head` — the slot of the
oldest unread byte — `rx_byte_count` increments past the capacity to 17,
and the engine still sends ACK and moves to `STATE_RECEIVE_DATA_BYTE`. -/
theorem rx_overrun_overwrites (cfg : Cfg) (env : Env) (e : Engine)
    (hstate : e.state = DeviceState.putByteInRxBufferAndSendAck)
    (hfull : e.rx.count = 16) (hht : e.rx.head = e.rx.tail) :
    (UsiOverflowHandler cfg env e).actions = [UsiAction.sendAck] ∧
    (UsiOverflowHandler cfg env e).slow = false ∧
    (UsiOverflowHandler cfg env e).eng.state = DeviceState.receiveDataByte ∧
    (UsiOverflowHandler cfg env e).eng.rx.buf ((e.rx.tail + 1) % 16) = env.usidr % 256 ∧
    (UsiOverflowHandler cfg env e).eng.rx.count = 17 % 256 := by
  rcases e with ⟨st, rx, tx, mp⟩
  simp only [] at hstate hfull hht
  subst hstate
  simp only [UsiOverflowHandler]
  refine ⟨trivial, trivial, trivial, ?_, ?_⟩
  · simp only [rxPush, RING_SIZE]
    rw [hht]
    simp [upd]
  · simp only [rxPush, RING_SIZE]
    rw [hfull]

/-- C7 witness at the concrete full-ring state. -/
theorem rx_overrun_overwrites_witness :
    engFullRx.state = DeviceState.putByteInRxBufferAndSendAck ∧
    engFullRx.rx.count = 16 ∧ engFullRx.rx.head = engFullRx.rx.tail ∧
    ((UsiOverflowHandler defaultCfg envByte engFullRx).actions = [UsiAction.sendAck] ∧
     (UsiOverflowHandler defaultCfg envByte engFullRx).slow = false ∧
     (UsiOverflowHandler defaultCfg envByte engFullRx).eng.state =
       DeviceState.receiveDataByte ∧
     (UsiOverflowHandler defaultCfg envByte engFullRx).eng.rx.buf
       ((engFullRx.rx.tail + 1) % 16) = envByte.usidr % 256 ∧
     (UsiOverflowHandler defaultCfg envByte engFullRx).eng.rx.count = 17 % 256) :=
  ⟨by decide, by decide, by decide,
   rx_overrun_overwrites defaultCfg envByte engFullRx (by decide) (by decide) (by decide)⟩

/-- C6 counterexample: a 16-byte sequence — exactly the TX ring capacity
`TWI_TX_BUFFER_SIZE` — does not round-trip through the TX ring: the
16th `UsiTwiTransmitByte` advances `tx_head` onto `tx_tail` and spins
forever, so the round trip never yields the sequence. -/
theorem tx_ring_capacity_cex :
    (List.replicate 16 1).length ≤ 16 ∧
    (∀ b ∈ List.replicate 16 1, b < 256) ∧
    txRoundtrip (List.replicate 16 1) ≠ some (List.replicate 16 1) := by
  decide

/-- C6 (amended): starting from empty rings, enqueuing the bytes of `s`
in order and then dequeuing `s.length` bytes yields exactly `s` — for
the TX ring (`UsiTwiTransmitByte` / the engine's `SEND_DATA_BYTE` pop)
when `s.length ≤ TWI_TX_BUFFER_SIZE - 1 = 15`, and for the RX ring (the
engine's push / the dispatcher's drain) when
`s.length ≤ TWI_RX_BUFFER_SIZE = 16`.  At TX length 16 the last enqueue
blocks forever (see the counterexample), so the TX bound is strict. -/
theorem ring_fifo_roundtrip (s : List Nat) (hb : ∀ b ∈ s, b < 256) :
    (s.length ≤ 15 → txRoundtrip s = some s) ∧
    (s.length ≤ 16 → rxRoundtrip s = s) :=
  ⟨fun h => txRoundtrip_ok s hb h, fun h => rxRoundtrip_ok s hb h⟩

/-- C6 witness at `s = [1, 2, 3]`. -/
theorem ring_fifo_roundtrip_witness :
    (∀ b ∈ ([1, 2, 3] : List Nat), b < 256) ∧
    txRoundtrip [1, 2, 3] = some [1, 2, 3] ∧
    rxRoundtrip [1, 2, 3] = [1, 2, 3] :=
  ⟨by decide,
   (ring_fifo_roundtrip [1, 2, 3] (by decide)).1 (by decide),
   (ring_fifo_roundtrip [1, 2, 3] (by decide)).2 (by decide)⟩

/-- C3: (1) `UsiOverflowHandler` — with the dispatcher and every command
handler it calls — never invokes `boot_page_erase` or `boot_page_write`;
(2) any main-loop iteration that erases or writes flash does so in the
slow-op section, draining `slow_ops_enabled` (clear on exit); (3) along
any main-loop run started with `slow_ops_enabled` clear, an iteration
that erases or writes flash is preceded (weakly) by an iteration whose
`UsiOverflowHandler` invocation returned `true`. -/
theorem slow_op_deferral :
    (∀ (cfg : Cfg) (env : Env) (e : Engine),
      ∀ op ∈ (UsiOverflowHandler cfg env e).ops, isSlowOp op = false) ∧
    (∀ (cfg : Cfg) (env : Env) (ls : LoopState),
      ∀ op ∈ (mainLoopStep cfg env ls).ops, isSlowOp op = true →
        (mainLoopStep cfg env ls).consumed = true ∧
        (mainLoopStep cfg env ls).ls.slow = false) ∧
    (∀ (cfg : Cfg) (envs : List Env) (ls0 : LoopState), ls0.slow = false →
      ∀ i, i < (runTrace cfg envs ls0).length →
        (∃ op ∈ ((runTrace cfg envs ls0).getD i dummyIter).ops, isSlowOp op = true) →
        ∃ j, j ≤ i ∧ j < (runTrace cfg envs ls0).length ∧
          ((runTrace cfg envs ls0).getD j dummyIter).handlerRes = some true) := by
  refine ⟨UsiOverflowHandler_ops_clean, ?_, ?_⟩
  · intro cfg env ls op hop htrue
    exact (mainLoopStep_dirty cfg env ls op hop htrue).2
  · intro cfg envs ls0 hslow i hi hdirty
    rcases runTrace_dirty cfg envs ls0 i hi hdirty with h | h
    · exact h
    · rw [hslow] at h
      exact absurd h (by simp)

/-- C3 witness: a one-iteration run in which the overflow handler sees
the master's NACK (returns `true`) and the DELFLASH slow-op then erases
the application pages. -/
theorem slow_op_deferral_witness :
    lsW.slow = false ∧
    0 < (runTrace cfgW [envW] lsW).length ∧
    (∃ op ∈ ((runTrace cfgW [envW] lsW).getD 0 dummyIter).ops, isSlowOp op = true) ∧
    (∃ j, j ≤ 0 ∧ j < (runTrace cfgW [envW] lsW).length ∧
      ((runTrace cfgW [envW] lsW).getD j dummyIter).handlerRes = some true) :=
  ⟨by decide, by decide, by decide,
   slow_op_deferral.2.2 cfgW [envW] lsW (by decide) 0 (by decide) (by decide)⟩

end Timonel
